import Mathlib

/-!
Shallow embedding of the core game-state engine of the Wumpus World game
(`wumpus_world_bg_fixed.py`): the grid data model, the randomized board
generator `reset_game`, the move operation `move_player` and the event
resolution `check_events`.  Rendering, audio and animation code is outside
the game-state core and is not modelled.

As in the source, the grid is a list of rows, each row a list of cells, and
each cell a list of `Element` tags (`self.grid = [[[] for _ in range(4)]
for _ in range(4)]`); the visited matrix is a list of rows of booleans.
Positions are integer pairs, as computed by the Python move arithmetic
before its bounds check; every cell access in the source is guarded by a
bounds check, so indexing with `Int.toNat` is exact on the guarded paths.
Random draws (`random.randint(a, b)`) are modelled by an arbitrary stream
of naturals, reduced into the interval `[a, b]`; the rejection-sampling
`while` loops of `reset_game` take a fuel parameter and return `none` when
the fuel runs out, so every theorem about generated boards quantifies over
all draw sequences.  `check_events` is written as the composition of its
five `if` blocks, in the fixed source order.
-/

/-- The `Element` enum of the source (cell tags). -/
inductive Element where
  | EMPTY
  | PLAYER
  | WUMPUS
  | PIT
  | GOLD
  | BREEZE
  | STENCH
deriving DecidableEq, Repr

/-- A grid coordinate: (row, column) as integers, as computed by the Python
move arithmetic before its bounds check. -/
abbrev Coord := ℤ × ℤ

/-- A grid: rows of cells, each cell the list of tags appended to it, in
order. -/
abbrev Grid := List (List (List Element))

/-- `GRID_SIZE = 4`. -/
def GRID_SIZE : ℤ := 4

/-- The start cell `(GRID_SIZE-1, 0)` (bottom-left), `self.player_pos`
after reset. -/
def startP : Coord := (3, 0)

/-- The bounds check `0 <= x < GRID_SIZE and 0 <= y < GRID_SIZE`. -/
def inB (p : Coord) : Prop :=
  0 ≤ p.1 ∧ p.1 < GRID_SIZE ∧ 0 ≤ p.2 ∧ p.2 < GRID_SIZE

instance : DecidablePred inB := fun p => by
  unfold inB; infer_instance

/-- Number of occurrences of tag `e` in a cell list. -/
def cellCount (e : Element) : List Element → ℕ
  | [] => 0
  | a :: l => (if a = e then 1 else 0) + cellCount e l

/-- Python `list.remove(e)`: drop the first occurrence of `e` (the source
only calls it when `e` is present). -/
def removeFirst (e : Element) : List Element → List Element
  | [] => []
  | a :: l => if a = e then l else a :: removeFirst e l

/-- Replace the entry at index `n` by its image under `f` (identity when
`n` is out of range): Python item assignment `l[n] = f(l[n])`. -/
def setAt {α : Type} (f : α → α) (n : ℕ) (l : List α) : List α :=
  match l with
  | [] => []
  | a :: l2 =>
    match n with
    | 0 => f a :: l2
    | m + 1 => a :: setAt f m l2

/-- Read entry `m[p.1][p.2]` of a matrix (the source only reads in-bounds
entries). -/
def get2 {α : Type} (d : α) (m : List (List α)) (p : Coord) : α :=
  (m.getD p.1.toNat []).getD p.2.toNat d

/-- Mutate entry `m[p.1][p.2]` of a matrix by `f` (the source only mutates
in-bounds entries). -/
def set2 {α : Type} (m : List (List α)) (p : Coord) (f : α → α) : List (List α) :=
  setAt (fun row => setAt f p.2.toNat row) p.1.toNat m

/-- The empty 4×4 grid built by `reset_game`. -/
def emptyGrid : Grid := List.replicate 4 (List.replicate 4 [])

/-- Read cell `grid[p.1][p.2]`. -/
def getCell (g : Grid) (p : Coord) : List Element :=
  get2 [] g p

/-- `grid[p].append(e)`. -/
def appendAt (g : Grid) (p : Coord) (e : Element) : Grid :=
  set2 g p (fun c => c ++ [e])

/-- `grid[p].remove(e)`. -/
def removeAt (g : Grid) (p : Coord) (e : Element) : Grid :=
  set2 g p (removeFirst e)

/-- The neighbor offsets `[(0, 1), (1, 0), (0, -1), (-1, 0)]` used when
stamping percepts. -/
def deltas : List Coord := [(0, 1), (1, 0), (0, -1), (-1, 0)]

/-- The in-bounds orthogonal neighbors of `q`, in the order the source
iterates them. -/
def nbrsOf (q : Coord) : List Coord :=
  (deltas.map (fun d => (q.1 + d.1, q.2 + d.2))).filter (fun n => decide (inB n))

/-- Stamp tag `e` into every in-bounds orthogonal neighbor of `q` (the
percept loops of `reset_game`). -/
def stamp (e : Element) (q : Coord) (g : Grid) : Grid :=
  (nbrsOf q).foldl (fun g2 n => appendAt g2 n e) g

/-- The sixteen in-bounds cells, row-major. -/
def posList : List Coord :=
  [(0,0), (0,1), (0,2), (0,3),
   (1,0), (1,1), (1,2), (1,3),
   (2,0), (2,1), (2,2), (2,3),
   (3,0), (3,1), (3,2), (3,3)]

/-- Total number of occurrences of tag `e` on the board. -/
def totalCount (e : Element) (g : Grid) : ℕ :=
  (posList.map (fun p => cellCount e (getCell g p))).sum

/-- A source of random draws: an arbitrary stream of naturals plus a
cursor.  `random.randint(a, b)` consumes one draw. -/
structure RNG where
  seq : ℕ → ℕ
  idx : ℕ

/-- `random.randint(a, b)` (inclusive bounds): an arbitrary value in
`[a, b]`, advancing the cursor. -/
def RNG.randint (r : RNG) (a b : ℕ) : ℕ × RNG :=
  (a + r.seq r.idx % (b - a + 1), ⟨r.seq, r.idx + 1⟩)

/-- The Wumpus placement `while` loop of `reset_game`: draw a cell until it
differs from the start cell, then place `WUMPUS` there and stamp `STENCH`
into its in-bounds neighbors.  Fuel bounds the number of rejected draws. -/
def placeWumpusLoop : ℕ → Grid → RNG → Option (Grid × RNG)
  | 0, _, _ => none
  | fuel + 1, g, r =>
    let a := r.randint 0 3
    let b := a.2.randint 0 3
    let w : Coord := ((a.1 : ℤ), (b.1 : ℤ))
    if w = startP then
      placeWumpusLoop fuel g b.2
    else
      some (stamp .STENCH w (appendAt g w .WUMPUS), b.2)

/-- The inner `while` loop of the pit placement: draw a cell until it is
neither the start cell nor a cell already holding `WUMPUS`, then place
`PIT` there and stamp `BREEZE` into its in-bounds neighbors. -/
def placePitLoop : ℕ → Grid → RNG → Option (Grid × RNG)
  | 0, _, _ => none
  | fuel + 1, g, r =>
    let a := r.randint 0 3
    let b := a.2.randint 0 3
    let w : Coord := ((a.1 : ℤ), (b.1 : ℤ))
    if ¬ w = startP ∧ ¬ Element.WUMPUS ∈ getCell g w then
      some (stamp .BREEZE w (appendAt g w .PIT), b.2)
    else
      placePitLoop fuel g b.2

/-- The `for _ in range(pit_count)` loop: place `count` pits in
sequence. -/
def placePits : ℕ → ℕ → Grid → RNG → Option (Grid × RNG)
  | 0, _, g, r => some (g, r)
  | count + 1, fuel, g, r =>
    match placePitLoop fuel g r with
    | none => none
    | some (g1, r1) => placePits count fuel g1 r1

/-- The gold fallback `while` loop: draw a cell until it is not the start
cell, holds no `WUMPUS` and holds no `PIT`; return the accepted cell. -/
def placeGoldLoop : ℕ → Grid → RNG → Option (Coord × RNG)
  | 0, _, _ => none
  | fuel + 1, g, r =>
    let a := r.randint 0 3
    let b := a.2.randint 0 3
    let w : Coord := ((a.1 : ℤ), (b.1 : ℤ))
    if ¬ w = startP ∧ ¬ Element.WUMPUS ∈ getCell g w ∧
        ¬ Element.PIT ∈ getCell g w then
      some (w, b.2)
    else
      placeGoldLoop fuel g b.2

/-- The session state: the fields of the `WumpusWorld` object touched by
`reset_game`, `move_player` and `check_events` (`stats` is flattened into
its four counters). -/
structure GameState where
  grid : Grid
  player_pos : Coord
  has_gold : Bool
  game_over : Bool
  win : Bool
  message : String
  visited : List (List Bool)
  moves : ℕ
  pits_nearby : ℕ
  wumpus_nearby : ℕ
  cells_visited : ℕ
deriving DecidableEq

/-- Read `visited[p.1][p.2]`. -/
def getVisited (v : List (List Bool)) (p : Coord) : Bool :=
  get2 false v p

/-- Set `visited[p.1][p.2] = True`. -/
def setVisited (v : List (List Bool)) (p : Coord) : List (List Bool) :=
  set2 v p (fun _ => true)

/-- The all-false visited matrix built by `reset_game`. -/
def emptyVisited : List (List Bool) := List.replicate 4 (List.replicate 4 false)

/-- The session fields as `reset_game` initializes them, around a finished
board `g`. -/
def mkInitState (g : Grid) : GameState :=
  { grid := g
    player_pos := startP
    has_gold := false
    game_over := false
    win := false
    message := "Find the gold and return to start!"
    visited := setVisited emptyVisited startP
    moves := 0
    pits_nearby := 0
    wumpus_nearby := 0
    cells_visited := 1 }

/-- `reset_game`: build the board in source order (player marker, Wumpus
and stenches, pits and breezes, gold with preferred cell
`(0, GRID_SIZE-1)`), then return the reset session state.  `none` when a
rejection-sampling loop exhausts its fuel. -/
def reset_game (fuel : ℕ) (r : RNG) : Option GameState :=
  let g0 : Grid := appendAt emptyGrid startP .PLAYER
  match placeWumpusLoop fuel g0 r with
  | none => none
  | some (g1, r1) =>
    let pc := r1.randint 1 3
    match placePits pc.1 fuel g1 pc.2 with
    | none => none
    | some (g2, r3) =>
      let pref : Coord := (0, 3)
      if pref = startP ∨ Element.WUMPUS ∈ getCell g2 pref ∨ Element.PIT ∈ getCell g2 pref then
        match placeGoldLoop fuel g2 r3 with
        | none => none
        | some (gp, _) => some (mkInitState (appendAt g2 gp .GOLD))
      else
        some (mkInitState (appendAt g2 pref .GOLD))

/-- First `if` of `check_events`: gold pickup (consume the tag, raise the
flag, set the found-gold message). -/
def goldStep (s : GameState) : GameState :=
  if Element.GOLD ∈ getCell s.grid s.player_pos then
    { s with
      grid := removeAt s.grid s.player_pos .GOLD
      has_gold := true
      message := "You found the gold! Return to start." }
  else s

/-- Second `if` of `check_events`: pit death. -/
def pitStep (s : GameState) : GameState :=
  if Element.PIT ∈ getCell s.grid s.player_pos then
    { s with game_over := true, message := "You fell into a pit! Game Over." }
  else s

/-- Third `if` of `check_events`: Wumpus death. -/
def wumpusStep (s : GameState) : GameState :=
  if Element.WUMPUS ∈ getCell s.grid s.player_pos then
    { s with game_over := true, message := "The Wumpus got you! Game Over." }
  else s

/-- Fourth `if` of `check_events`: win on returning to start with the
gold. -/
def winStep (s : GameState) : GameState :=
  if s.has_gold = true ∧ s.player_pos = startP then
    { s with
      game_over := true
      win := true
      message := "You won! You got the gold and returned safely." }
  else s

/-- Final block of `check_events`: only while the game is not over, reset
the nearby counters from the current cell's percepts and rebuild the status
message. -/
def perceptStep (s : GameState) : GameState :=
  if s.game_over = true then s
  else
    let cell := getCell s.grid s.player_pos
    let hasB := Element.BREEZE ∈ cell
    let hasS := Element.STENCH ∈ cell
    { s with
      pits_nearby := if hasB then 1 else 0
      wumpus_nearby := if hasS then 1 else 0
      message :=
        if hasB ∧ hasS then "You feel a breeze & You smell a stench"
        else if hasB then "You feel a breeze"
        else if hasS then "You smell a stench"
        else if s.has_gold = true then "Return to start with the gold!"
        else "Find the gold!" }

/-- `check_events`: the five blocks in the fixed source order. -/
def check_events (s : GameState) : GameState :=
  perceptStep (winStep (wumpusStep (pitStep (goldStep s))))

/-- The committed part of `move_player` before event resolution: move
counter, player marker, position, visited bookkeeping. -/
def commitMove (s : GameState) (q : Coord) : GameState :=
  { s with
    grid := appendAt (removeAt s.grid s.player_pos .PLAYER) q .PLAYER
    player_pos := q
    visited :=
      if getVisited s.visited q = true then s.visited else setVisited s.visited q
    moves := s.moves + 1
    cells_visited :=
      if getVisited s.visited q = true then s.cells_visited else s.cells_visited + 1 }

/-- `move_player(dx, dy)`: no-op when the game is over or the candidate
cell is out of bounds; otherwise commit the move and resolve events. -/
def move_player (s : GameState) (dx dy : ℤ) : GameState :=
  if s.game_over = true then s
  else
    let c : Coord := (s.player_pos.1 + dx, s.player_pos.2 + dy)
    if inB c then check_events (commitMove s c) else s

/-- The four directional inputs of the main loop. -/
inductive Direction where
  | up
  | down
  | left
  | right
deriving DecidableEq, Repr

/-- The unit delta each arrow key passes to `move_player`. -/
def Direction.delta : Direction → Coord
  | .up => (-1, 0)
  | .down => (1, 0)
  | .left => (0, -1)
  | .right => (0, 1)

/-- `attemptMove`: one directional input, as dispatched by the main
loop. -/
def attemptMove (s : GameState) (d : Direction) : GameState :=
  move_player s d.delta.1 d.delta.2

/-- The cell a directional input aims at. -/
def candidate (s : GameState) (d : Direction) : Coord :=
  (s.player_pos.1 + d.delta.1, s.player_pos.2 + d.delta.2)

/-- Apply a sequence of directional inputs in order. -/
def applyMoves (s : GameState) : List Direction → GameState
  | [] => s
  | d :: ds => applyMoves (attemptMove s d) ds

/-- The session status of the spec, derived from the `game_over`/`win`
flags. -/
inductive Status where
  | Ongoing
  | Won
  | Lost
deriving DecidableEq, Repr

/-- Status of a session state. -/
def GameState.status (s : GameState) : Status :=
  if s.game_over = true then (if s.win = true then .Won else .Lost) else .Ongoing

/-- A state is reachable when some reset (for some fuel and draw stream)
followed by some sequence of directional inputs produces it. -/
def Reachable (s : GameState) : Prop :=
  ∃ fuel r ms, (reset_game fuel r).map (fun s0 => applyMoves s0 ms) = some s

/-- In-bounds orthogonal adjacency: `p` is an in-bounds cell one step from
`q` in one of the four cardinal directions. -/
def Adj (p q : Coord) : Prop :=
  inB p ∧
    ((p.1 = q.1 ∧ p.2 = q.2 + 1) ∨ (p.1 = q.1 + 1 ∧ p.2 = q.2) ∨
     (p.1 = q.1 ∧ p.2 = q.2 - 1) ∨ (p.1 = q.1 - 1 ∧ p.2 = q.2))

instance : ∀ p q, Decidable (Adj p q) := fun p q => by
  unfold Adj; infer_instance

/-- The fixed 4×4 shape of the grid and the visited matrix. -/
def Shape4 {α : Type} (m : List (List α)) : Prop :=
  m.length = 4 ∧ ∀ row ∈ m, row.length = 4

/-- Breeze correctness: a cell has `BREEZE` iff it is an in-bounds
orthogonal neighbor of some cell holding `PIT`. -/
def BreezeIff (g : Grid) : Prop :=
  ∀ p, inB p → (Element.BREEZE ∈ getCell g p ↔
    ∃ q, inB q ∧ Adj p q ∧ Element.PIT ∈ getCell g q)

/-- All the board-level guarantees that hold of a freshly generated
board. -/
structure BoardFacts (g : Grid) : Prop where
  shape : Shape4 g
  player : ∀ p, inB p → cellCount Element.PLAYER (getCell g p) = if p = startP then 1 else 0
  wumpusTotal : totalCount Element.WUMPUS g = 1
  wumpusCell : ∃ w, inB w ∧ w ≠ startP ∧
    (∀ p, inB p → (Element.WUMPUS ∈ getCell g p ↔ p = w)) ∧
    (∀ p, inB p → (Element.STENCH ∈ getCell g p ↔ Adj p w))
  pitTotalLow : 1 ≤ totalCount Element.PIT g
  pitTotalHigh : totalCount Element.PIT g ≤ 3
  pitCells : ∀ p, inB p → Element.PIT ∈ getCell g p →
    p ≠ startP ∧ Element.WUMPUS ∉ getCell g p
  breeze : BreezeIff g
  goldTotal : totalCount Element.GOLD g = 1
  goldCell : ∃ gp, inB gp ∧ gp ≠ startP ∧ Element.WUMPUS ∉ getCell g gp ∧
    Element.PIT ∉ getCell g gp ∧ ∀ p, inB p → (Element.GOLD ∈ getCell g p ↔ p = gp)

/-- The number of visited cells (what `cells_visited` mirrors). -/
def countVisited (v : List (List Bool)) : ℕ :=
  (posList.map (fun p => if getVisited v p = true then 1 else 0)).sum

/-- Grid-level invariants of a session, parameterized by the player
position and the gold flag. -/
def GInv (g : Grid) (pos : Coord) (hasg : Bool) : Prop :=
  Shape4 g ∧ inB pos ∧
  (∀ p, inB p → cellCount Element.PLAYER (getCell g p) = if p = pos then 1 else 0) ∧
  totalCount Element.WUMPUS g = 1 ∧
  totalCount Element.GOLD g + (if hasg = true then 1 else 0) = 1 ∧
  (∀ p, inB p → Element.PIT ∈ getCell g p → Element.WUMPUS ∉ getCell g p) ∧
  Element.PIT ∉ getCell g startP ∧
  (∀ p, inB p → Element.GOLD ∈ getCell g p →
    p ≠ startP ∧ Element.PIT ∉ getCell g p ∧ Element.WUMPUS ∉ getCell g p)

/-- The session invariant maintained by reset and every move. -/
structure SessionInv (s : GameState) : Prop where
  ginv : GInv s.grid s.player_pos s.has_gold
  vshape : Shape4 s.visited
  visCount : s.cells_visited = countVisited s.visited
  winGo : s.win = true → s.game_over = true

/-! ### Concrete boards used by the concrete-instance theorems -/

/-- A concrete draw stream: Wumpus at (1,1), one pit at (3,3), gold at the
preferred cell (0,3). -/
def rngC : RNG := ⟨fun n => [1, 1, 0, 3, 3].getD n 0, 0⟩

/-- The board generated from `rngC`. -/
def s0C : GameState := (reset_game 5 rngC).getD (mkInitState emptyGrid)

/-- Walk from (3,0) to the gold at (0,3) along the left and top edges. -/
def msGoldC : List Direction := [.up, .up, .up, .right, .right, .right]

/-- The session just after collecting the gold on the concrete board. -/
def cexGoldenRun : GameState := applyMoves s0C msGoldC

/-- The session back at (2,0), carrying the gold, one move from home. -/
def s3C : GameState := applyMoves s0C (msGoldC ++ [.left, .left, .left, .down, .down])

/-- The session at (3,2), one move from the pit at (3,3). -/
def s4C : GameState := applyMoves s0C [.right, .right]

/-- The session at (0,2), one move from the gold at (0,3). -/
def s5C : GameState := applyMoves s0C [.up, .up, .up, .right, .right]

/-- A dead session: walked right into the pit at (3,3). -/
def s6C : GameState := applyMoves s0C [.right, .right, .right]

/-! ### List-level lemmas -/

theorem cellCount_append (e a : Element) (l : List Element) :
    cellCount e (l ++ [a]) = cellCount e l + (if a = e then 1 else 0) := by
  induction l with
  | nil => simp [cellCount]
  | cons b l ih =>
    show (if b = e then 1 else 0) + cellCount e (l ++ [a]) =
      (if b = e then 1 else 0) + cellCount e l + (if a = e then 1 else 0)
    rw [ih]
    omega

theorem cellCount_pos_iff (e : Element) (l : List Element) :
    0 < cellCount e l ↔ e ∈ l := by
  induction l with
  | nil => simp [cellCount]
  | cons b l ih =>
    by_cases hb : b = e
    · subst hb; simp [cellCount]
    · simp [cellCount, hb, Ne.symm hb, ih]

theorem mem_iff_cellCount_ne (e : Element) (l : List Element) :
    e ∈ l ↔ cellCount e l ≠ 0 := by
  rw [← cellCount_pos_iff]; omega

theorem cellCount_removeFirst_ne {e1 e : Element} (h : e1 ≠ e) (l : List Element) :
    cellCount e1 (removeFirst e l) = cellCount e1 l := by
  induction l with
  | nil => simp [removeFirst]
  | cons b l ih =>
    by_cases hb : b = e
    · subst hb; simp [removeFirst, cellCount, Ne.symm h]
    · simp [removeFirst, hb, cellCount, ih]

theorem cellCount_removeFirst_self {e : Element} {l : List Element} (h : e ∈ l) :
    cellCount e (removeFirst e l) + 1 = cellCount e l := by
  induction l with
  | nil => simp at h
  | cons b l ih =>
    by_cases hb : b = e
    · subst hb; simp [removeFirst, cellCount]; omega
    · have hm : e ∈ l := by
        rcases List.mem_cons.1 h with h1 | h1
        · exact absurd h1.symm hb
        · exact h1
      have h2 := ih hm
      simp only [removeFirst, if_neg hb, cellCount]
      omega

theorem removeFirst_of_not_mem {e : Element} {l : List Element} (h : e ∉ l) :
    removeFirst e l = l := by
  induction l with
  | nil => rfl
  | cons b l ih =>
    have hb : b ≠ e := fun hbe => h (hbe ▸ List.mem_cons_self b l)
    have hl : e ∉ l := fun hm => h (List.mem_cons_of_mem b hm)
    simp [removeFirst, hb, ih hl]

theorem mem_removeFirst_of_ne {e1 e : Element} (h : e1 ≠ e) (l : List Element) :
    e1 ∈ removeFirst e l ↔ e1 ∈ l := by
  rw [mem_iff_cellCount_ne, mem_iff_cellCount_ne, cellCount_removeFirst_ne h]

/-! ### `setAt` / matrix lemmas -/

theorem setAt_length {α : Type} (f : α → α) :
    ∀ (n : ℕ) (l : List α), (setAt f n l).length = l.length := by
  intro n l
  induction l generalizing n with
  | nil => cases n <;> rfl
  | cons a l ih => cases n with
    | zero => simp [setAt]
    | succ m => simp only [setAt, List.length_cons, ih]

theorem setAt_of_le {α : Type} (f : α → α) :
    ∀ (n : ℕ) (l : List α), l.length ≤ n → setAt f n l = l := by
  intro n l
  induction l generalizing n with
  | nil => intro _; cases n <;> rfl
  | cons a l ih => cases n with
    | zero => intro h; simp at h
    | succ m =>
      intro h
      simp only [setAt]
      rw [ih m (by simpa using h)]

theorem getD_setAt_self {α : Type} (f : α → α) (d : α) :
    ∀ (l : List α) (n : ℕ), n < l.length → (setAt f n l).getD n d = f (l.getD n d) := by
  intro l
  induction l with
  | nil => intro n h; simp at h
  | cons a l ih =>
    intro n h
    cases n with
    | zero => rfl
    | succ m =>
      show (setAt f m l).getD m d = f (l.getD m d)
      exact ih m (by simpa using h)

theorem getD_setAt_ne {α : Type} (f : α → α) (d : α) :
    ∀ (l : List α) (n m : ℕ), m ≠ n → (setAt f n l).getD m d = l.getD m d := by
  intro l
  induction l with
  | nil => intro n m _; cases n <;> rfl
  | cons a l ih =>
    intro n m h
    cases n with
    | zero => cases m with
      | zero => exact absurd rfl h
      | succ k => rfl
    | succ j => cases m with
      | zero => rfl
      | succ k =>
        show (setAt f j l).getD k d = l.getD k d
        exact ih j k (by omega)

theorem mem_setAt {α : Type} (f : α → α) :
    ∀ (n : ℕ) (l : List α) (a : α), a ∈ setAt f n l → a ∈ l ∨ ∃ b, b ∈ l ∧ a = f b := by
  intro n l
  induction l generalizing n with
  | nil => intro a h; simp [setAt] at h
  | cons c l ih =>
    intro a h
    cases n with
    | zero =>
      rcases List.mem_cons.1 h with h1 | h1
      · exact Or.inr ⟨c, List.mem_cons_self c l, h1⟩
      · exact Or.inl (List.mem_cons_of_mem c h1)
    | succ m =>
      rcases List.mem_cons.1 h with h1 | h1
      · exact Or.inl (h1 ▸ List.mem_cons_self c l)
      · rcases ih m a h1 with h2 | ⟨b, hb, he⟩
        · exact Or.inl (List.mem_cons_of_mem c h2)
        · exact Or.inr ⟨b, List.mem_cons_of_mem c hb, he⟩

theorem Shape4_set2 {α : Type} {m : List (List α)} (h : Shape4 m) (p : Coord) (f : α → α) :
    Shape4 (set2 m p f) := by
  obtain ⟨hlen, hrow⟩ := h
  constructor
  · rw [set2, setAt_length, hlen]
  · intro row hr
    rcases mem_setAt _ _ _ _ hr with h1 | ⟨b, hb, he⟩
    · exact hrow row h1
    · rw [he, setAt_length]; exact hrow b hb

theorem gridSize_eq : GRID_SIZE = 4 := rfl

theorem toNat_inj_of_inB {p q : Coord} (hp : inB p) (hq : inB q) (h : p ≠ q) :
    p.1.toNat ≠ q.1.toNat ∨ (p.1.toNat = q.1.toNat ∧ p.2.toNat ≠ q.2.toNat) := by
  obtain ⟨hp1, hp2, hp3, hp4⟩ := hp
  obtain ⟨hq1, hq2, hq3, hq4⟩ := hq
  rw [gridSize_eq] at hp2 hp4 hq2 hq4
  by_cases h1 : p.1 = q.1
  · refine Or.inr ⟨by rw [h1], ?_⟩
    have h2 : p.2 ≠ q.2 := by
      intro h2
      exact h (Prod.ext h1 h2)
    omega
  · exact Or.inl (by omega)

theorem get2_set2_self {α : Type} {m : List (List α)} (d : α) (hsh : Shape4 m)
    {p : Coord} (hp : inB p) (f : α → α) :
    get2 d (set2 m p f) p = f (get2 d m p) := by
  obtain ⟨hlen, hrow⟩ := hsh
  obtain ⟨hp1, hp2, hp3, hp4⟩ := hp
  rw [gridSize_eq] at hp2 hp4
  have h1 : p.1.toNat < m.length := by omega
  have hmem : m.getD p.1.toNat [] ∈ m := by
    rw [List.getD_eq_getElem m [] h1]
    exact List.getElem_mem h1
  have h2 : p.2.toNat < (m.getD p.1.toNat []).length := by
    rw [hrow _ hmem]
    omega
  rw [get2, get2, set2, getD_setAt_self _ _ _ _ h1, getD_setAt_self _ _ _ _ h2]

theorem get2_set2_ne {α : Type} {m : List (List α)} (d : α)
    {p q : Coord} (hp : inB p) (hq : inB q) (hne : p ≠ q) (f : α → α) :
    get2 d (set2 m q f) p = get2 d m p := by
  rcases toNat_inj_of_inB hp hq hne with h1 | ⟨h1, h2⟩
  · rw [get2, get2, set2, getD_setAt_ne _ _ _ _ _ h1]
  · rw [get2, get2, set2, h1]
    by_cases h3 : q.1.toNat < m.length
    · rw [getD_setAt_self _ _ _ _ h3, getD_setAt_ne _ _ _ _ _ h2]
    · rw [setAt_of_le _ _ _ (by omega)]

/-- Mutating any entry by a measure-preserving map preserves the measure of
every entry, with no bounds assumptions (out-of-range writes are identity,
and index collisions through `Int.toNat` still apply the map). -/
theorem get2_set2_measure {α β : Type} (mea : α → β) {f : α → α}
    (hf : ∀ a, mea (f a) = mea a) (d : α) (m : List (List α)) (q p : Coord) :
    mea (get2 d (set2 m q f) p) = mea (get2 d m p) := by
  by_cases h1 : p.1.toNat = q.1.toNat
  · by_cases h3 : q.1.toNat < m.length
    · rw [get2, get2, set2, h1, getD_setAt_self _ _ _ _ h3]
      by_cases h2 : p.2.toNat = q.2.toNat
      · by_cases h4 : q.2.toNat < (m.getD q.1.toNat []).length
        · rw [h2, getD_setAt_self _ _ _ _ h4, hf]
        · rw [h2, setAt_of_le _ _ _ (by omega)]
      · rw [getD_setAt_ne _ _ _ _ _ h2]
    · rw [get2, get2, set2, setAt_of_le _ _ _ (by omega)]
  · rw [get2, get2, set2, getD_setAt_ne _ _ _ _ _ h1]

/-! ### `posList` and `totalCount` lemmas -/

theorem posList_nodup : posList.Nodup := by decide

set_option maxHeartbeats 1000000 in
theorem mem_posList (p : Coord) : p ∈ posList ↔ inB p := by
  obtain ⟨a, b⟩ := p
  simp only [posList, inB, GRID_SIZE, List.mem_cons, List.not_mem_nil, or_false,
    Prod.mk.injEq]
  omega

/-- Changing a pointwise function at a single position of a nodup list
shifts the mapped sum by the local difference. -/
theorem sum_map_update (l : List Coord) (hnd : l.Nodup) (p : Coord) (hp : p ∈ l)
    (f f1 : Coord → ℕ) (hsame : ∀ q ∈ l, q ≠ p → f1 q = f q) :
    (l.map f1).sum + f p = (l.map f).sum + f1 p := by
  induction l with
  | nil => simp at hp
  | cons c l ih =>
    rcases List.mem_cons.1 hp with h1 | h1
    · subst h1
      have hnp : p ∉ l := (List.nodup_cons.1 hnd).1
      have hmaps : l.map f1 = l.map f := by
        apply List.map_congr_left
        intro q hq
        exact hsame q (List.mem_cons_of_mem p hq) (fun hqa => hnp (hqa ▸ hq))
      simp only [List.map_cons, List.sum_cons, hmaps]
      omega
    · have hc : c ≠ p := by
        intro hcp
        exact (List.nodup_cons.1 hnd).1 (hcp ▸ h1)
      have hfc : f1 c = f c := hsame c (List.mem_cons_self c l) hc
      have ihr := ih (List.nodup_cons.1 hnd).2 h1
        (fun q hq hqp => hsame q (List.mem_cons_of_mem c hq) hqp)
      simp only [List.map_cons, List.sum_cons, hfc]
      omega

theorem totalCount_congr (e : Element) {g1 g2 : Grid}
    (h : ∀ q, inB q → cellCount e (getCell g1 q) = cellCount e (getCell g2 q)) :
    totalCount e g1 = totalCount e g2 := by
  unfold totalCount
  exact congrArg List.sum (List.map_congr_left (fun q hq => h q ((mem_posList q).1 hq)))

/-- Mutating one in-bounds cell shifts the board total by the local
difference. -/
theorem totalCount_set2 (e : Element) {g : Grid} (hsh : Shape4 g)
    {p : Coord} (hp : inB p) (f : List Element → List Element) :
    totalCount e (set2 g p f) + cellCount e (getCell g p) =
      totalCount e g + cellCount e (f (getCell g p)) := by
  have hself : getCell (set2 g p f) p = f (getCell g p) := get2_set2_self [] hsh hp f
  have key : totalCount e (set2 g p f) + cellCount e (getCell g p) =
      totalCount e g + cellCount e (getCell (set2 g p f) p) :=
    sum_map_update posList posList_nodup p ((mem_posList p).2 hp)
      (fun q => cellCount e (getCell g q))
      (fun q => cellCount e (getCell (set2 g p f) q))
      (fun q hq hqp => by
        have hinq : inB q := (mem_posList q).1 hq
        show cellCount e (getCell (set2 g p f) q) = cellCount e (getCell g q)
        unfold getCell
        rw [get2_set2_ne [] hinq hp hqp f])
  rw [hself] at key
  exact key

theorem getCell_appendAt_self {g : Grid} (hsh : Shape4 g) {p : Coord} (hp : inB p)
    (e : Element) : getCell (appendAt g p e) p = getCell g p ++ [e] :=
  get2_set2_self [] hsh hp _

theorem getCell_appendAt_ne {p q : Coord} (hp : inB p) (hq : inB q) (hne : p ≠ q)
    (g : Grid) (e : Element) : getCell (appendAt g q e) p = getCell g p :=
  get2_set2_ne [] hp hq hne _

theorem getCell_removeAt_self {g : Grid} (hsh : Shape4 g) {p : Coord} (hp : inB p)
    (e : Element) : getCell (removeAt g p e) p = removeFirst e (getCell g p) :=
  get2_set2_self [] hsh hp _

theorem getCell_removeAt_ne {p q : Coord} (hp : inB p) (hq : inB q) (hne : p ≠ q)
    (g : Grid) (e : Element) : getCell (removeAt g q e) p = getCell g p :=
  get2_set2_ne [] hp hq hne _

theorem cellCount_appendAt_ne {e1 e : Element} (hne : e1 ≠ e) (g : Grid) (q p : Coord) :
    cellCount e1 (getCell (appendAt g q e) p) = cellCount e1 (getCell g p) :=
  get2_set2_measure (cellCount e1)
    (fun c => by rw [cellCount_append]; simp [Ne.symm hne]) [] g q p

theorem cellCount_removeAt_ne {e1 e : Element} (hne : e1 ≠ e) (g : Grid) (q p : Coord) :
    cellCount e1 (getCell (removeAt g q e) p) = cellCount e1 (getCell g p) :=
  get2_set2_measure (cellCount e1) (fun c => cellCount_removeFirst_ne hne c) [] g q p

theorem mem_appendAt_ne {e1 e : Element} (hne : e1 ≠ e) (g : Grid) (q p : Coord) :
    e1 ∈ getCell (appendAt g q e) p ↔ e1 ∈ getCell g p := by
  rw [mem_iff_cellCount_ne, mem_iff_cellCount_ne, cellCount_appendAt_ne hne]

theorem mem_removeAt_ne {e1 e : Element} (hne : e1 ≠ e) (g : Grid) (q p : Coord) :
    e1 ∈ getCell (removeAt g q e) p ↔ e1 ∈ getCell g p := by
  rw [mem_iff_cellCount_ne, mem_iff_cellCount_ne, cellCount_removeAt_ne hne]

theorem totalCount_appendAt_self (e : Element) {g : Grid} (hsh : Shape4 g)
    {p : Coord} (hp : inB p) :
    totalCount e (appendAt g p e) = totalCount e g + 1 := by
  show totalCount e (set2 g p (fun c => c ++ [e])) = totalCount e g + 1
  have h := totalCount_set2 e hsh hp (fun c => c ++ [e])
  rw [cellCount_append] at h
  simp only [eq_self_iff_true, if_true] at h
  omega

theorem totalCount_appendAt_ne {e1 e : Element} (hne : e1 ≠ e) (g : Grid) (p : Coord) :
    totalCount e1 (appendAt g p e) = totalCount e1 g :=
  totalCount_congr e1 (fun q _ => cellCount_appendAt_ne hne g p q)

theorem totalCount_removeAt_self (e : Element) {g : Grid} (hsh : Shape4 g)
    {p : Coord} (hp : inB p) (hmem : e ∈ getCell g p) :
    totalCount e (removeAt g p e) + 1 = totalCount e g := by
  show totalCount e (set2 g p (removeFirst e)) + 1 = totalCount e g
  have h := totalCount_set2 e hsh hp (removeFirst e)
  have h2 := cellCount_removeFirst_self hmem
  omega

theorem totalCount_removeAt_ne {e1 e : Element} (hne : e1 ≠ e) (g : Grid) (p : Coord) :
    totalCount e1 (removeAt g p e) = totalCount e1 g :=
  totalCount_congr e1 (fun q _ => cellCount_removeAt_ne hne g p q)

/-- One board-level cell count never exceeds the board total. -/
theorem cellCount_le_totalCount (e : Element) (g : Grid) {p : Coord} (hp : inB p) :
    cellCount e (getCell g p) ≤ totalCount e g := by
  have hmem : cellCount e (getCell g p) ∈ posList.map (fun q => cellCount e (getCell g q)) :=
    List.mem_map.2 ⟨p, (mem_posList p).2 hp, rfl⟩
  exact List.single_le_sum (fun x _ => Nat.zero_le x) _ hmem

/-! ### Neighbor and stamp lemmas -/

theorem nbrsOf_inB {q n : Coord} (h : n ∈ nbrsOf q) : inB n := by
  have h2 := (List.mem_filter.1 h).2
  simpa using h2

theorem mem_nbrsOf (p q : Coord) : p ∈ nbrsOf q ↔ Adj p q := by
  rw [nbrsOf, List.mem_filter, List.mem_map]
  obtain ⟨a, b⟩ := p
  obtain ⟨c, d⟩ := q
  simp only [decide_eq_true_eq]
  constructor
  · rintro ⟨⟨x, hx, hfx⟩, hB⟩
    refine ⟨hB, ?_⟩
    simp only [deltas, List.mem_cons, List.not_mem_nil, or_false] at hx
    rcases hx with rfl | rfl | rfl | rfl <;>
      (rw [Prod.mk.injEq] at hfx; obtain ⟨h1, h2⟩ := hfx; simp only []; omega)
  · rintro ⟨hB, hc⟩
    refine ⟨?_, hB⟩
    rcases hc with ⟨h1, h2⟩ | ⟨h1, h2⟩ | ⟨h1, h2⟩ | ⟨h1, h2⟩
    · exact ⟨(0, 1), by simp [deltas], by rw [Prod.mk.injEq]; exact ⟨by omega, by omega⟩⟩
    · exact ⟨(1, 0), by simp [deltas], by rw [Prod.mk.injEq]; exact ⟨by omega, by omega⟩⟩
    · exact ⟨(0, -1), by simp [deltas], by rw [Prod.mk.injEq]; exact ⟨by omega, by omega⟩⟩
    · exact ⟨(-1, 0), by simp [deltas], by rw [Prod.mk.injEq]; exact ⟨by omega, by omega⟩⟩

theorem Shape4_foldl_appendAt (e : Element) :
    ∀ (ns : List Coord) (g : Grid), Shape4 g →
      Shape4 (ns.foldl (fun g2 n => appendAt g2 n e) g) := by
  intro ns
  induction ns with
  | nil => intro g hg; exact hg
  | cons n ns ih =>
    intro g hg
    exact ih (appendAt g n e) (Shape4_set2 hg n _)

theorem cellCount_foldl_appendAt_ne {e1 e : Element} (hne : e1 ≠ e) :
    ∀ (ns : List Coord) (g : Grid) (p : Coord),
      cellCount e1 (getCell (ns.foldl (fun g2 n => appendAt g2 n e) g) p) =
        cellCount e1 (getCell g p) := by
  intro ns
  induction ns with
  | nil => intro g p; rfl
  | cons n ns ih =>
    intro g p
    rw [List.foldl_cons, ih (appendAt g n e) p, cellCount_appendAt_ne hne]

theorem mem_foldl_appendAt (e a : Element) :
    ∀ (ns : List Coord), (∀ n ∈ ns, inB n) → ∀ (g : Grid), Shape4 g →
      ∀ (p : Coord), inB p →
      (a ∈ getCell (ns.foldl (fun g2 n => appendAt g2 n e) g) p ↔
        a ∈ getCell g p ∨ (a = e ∧ p ∈ ns)) := by
  intro ns
  induction ns with
  | nil => intro _ g _ p _; simp
  | cons n ns ih =>
    intro hns g hg p hp
    have hn : inB n := hns n (List.mem_cons_self n ns)
    have step := ih (fun m hm => hns m (List.mem_cons_of_mem n hm))
      (appendAt g n e) (Shape4_set2 hg n _) p hp
    rw [List.foldl_cons, step]
    by_cases hpn : p = n
    · subst hpn
      rw [getCell_appendAt_self hg hp]
      simp only [List.mem_append, List.mem_cons, List.not_mem_nil, or_false]
      tauto
    · rw [getCell_appendAt_ne hp hn hpn]
      simp only [List.mem_cons]
      constructor
      · rintro (h1 | ⟨h1, h2⟩)
        · exact Or.inl h1
        · exact Or.inr ⟨h1, Or.inr h2⟩
      · rintro (h1 | ⟨h1, h2 | h2⟩)
        · exact Or.inl h1
        · exact absurd h2 hpn
        · exact Or.inr ⟨h1, h2⟩

theorem Shape4_stamp (e : Element) (q : Coord) {g : Grid} (hg : Shape4 g) :
    Shape4 (stamp e q g) :=
  Shape4_foldl_appendAt e (nbrsOf q) g hg

theorem cellCount_stamp_ne {e1 e : Element} (hne : e1 ≠ e) (q : Coord) (g : Grid)
    (p : Coord) : cellCount e1 (getCell (stamp e q g) p) = cellCount e1 (getCell g p) :=
  cellCount_foldl_appendAt_ne hne (nbrsOf q) g p

theorem mem_stamp_ne {e1 e : Element} (hne : e1 ≠ e) (q : Coord) (g : Grid) (p : Coord) :
    e1 ∈ getCell (stamp e q g) p ↔ e1 ∈ getCell g p := by
  rw [mem_iff_cellCount_ne, mem_iff_cellCount_ne, cellCount_stamp_ne hne]

theorem mem_stamp (e a : Element) (q : Coord) {g : Grid} (hg : Shape4 g)
    {p : Coord} (hp : inB p) :
    a ∈ getCell (stamp e q g) p ↔ a ∈ getCell g p ∨ (a = e ∧ Adj p q) := by
  rw [stamp, mem_foldl_appendAt e a (nbrsOf q) (fun n hn => nbrsOf_inB hn) g hg p hp,
    mem_nbrsOf]

theorem totalCount_stamp_ne {e1 e : Element} (hne : e1 ≠ e) (q : Coord) (g : Grid) :
    totalCount e1 (stamp e q g) = totalCount e1 g :=
  totalCount_congr e1 (fun p _ => cellCount_stamp_ne hne q g p)

/-! ### Generator loop specifications -/

theorem randint03_lt (r : RNG) : (r.randint 0 3).1 < 4 := by
  simp only [RNG.randint]
  omega

theorem randint13_bounds (r : RNG) :
    1 ≤ (r.randint 1 3).1 ∧ (r.randint 1 3).1 ≤ 3 := by
  simp only [RNG.randint]
  omega

theorem draw_inB {x y : ℕ} (hx : x < 4) (hy : y < 4) : inB ((x : ℤ), (y : ℤ)) := by
  refine ⟨?_, ?_, ?_, ?_⟩
  · show (0 : ℤ) ≤ (x : ℤ)
    omega
  · show (x : ℤ) < GRID_SIZE
    rw [gridSize_eq]
    omega
  · show (0 : ℤ) ≤ (y : ℤ)
    omega
  · show (y : ℤ) < GRID_SIZE
    rw [gridSize_eq]
    omega

theorem placeWumpusLoop_spec :
    ∀ (fuel : ℕ) (g : Grid) (r : RNG) (g1 : Grid) (r1 : RNG),
      placeWumpusLoop fuel g r = some (g1, r1) →
      ∃ w, inB w ∧ w ≠ startP ∧ g1 = stamp .STENCH w (appendAt g w .WUMPUS) := by
  intro fuel
  induction fuel with
  | zero => intro g r g1 r1 h; simp [placeWumpusLoop] at h
  | succ n ih =>
    intro g r g1 r1 h
    simp only [placeWumpusLoop] at h
    split at h
    · exact ih g _ g1 r1 h
    · rename_i hc
      obtain ⟨h1, _⟩ := Option.some.injEq _ _ ▸ h
      injection h with h2
      injection h2 with h3 h4
      refine ⟨_, draw_inB (randint03_lt r) (randint03_lt _), hc, h3.symm⟩

theorem placePitLoop_spec :
    ∀ (fuel : ℕ) (g : Grid) (r : RNG) (g1 : Grid) (r1 : RNG),
      placePitLoop fuel g r = some (g1, r1) →
      ∃ w, inB w ∧ w ≠ startP ∧ Element.WUMPUS ∉ getCell g w ∧
        g1 = stamp .BREEZE w (appendAt g w .PIT) := by
  intro fuel
  induction fuel with
  | zero => intro g r g1 r1 h; simp [placePitLoop] at h
  | succ n ih =>
    intro g r g1 r1 h
    simp only [placePitLoop] at h
    split at h
    · rename_i hc
      injection h with h2
      injection h2 with h3 h4
      exact ⟨_, draw_inB (randint03_lt r) (randint03_lt _), hc.1, hc.2, h3.symm⟩
    · exact ih g _ g1 r1 h

theorem placeGoldLoop_spec :
    ∀ (fuel : ℕ) (g : Grid) (r : RNG) (w : Coord) (r1 : RNG),
      placeGoldLoop fuel g r = some (w, r1) →
      inB w ∧ w ≠ startP ∧ Element.WUMPUS ∉ getCell g w ∧ Element.PIT ∉ getCell g w := by
  intro fuel
  induction fuel with
  | zero => intro g r w r1 h; simp [placeGoldLoop] at h
  | succ n ih =>
    intro g r w r1 h
    simp only [placeGoldLoop] at h
    split at h
    · rename_i hc
      injection h with h2
      injection h2 with h3 h4
      exact h3 ▸ ⟨draw_inB (randint03_lt r) (randint03_lt _), hc.1, hc.2.1, hc.2.2⟩
    · exact ih g _ w r1 h

/-- Placing one pit at an in-bounds cell and stamping its breezes preserves
breeze correctness. -/
theorem BreezeIff_pitPlace {g : Grid} (hsh : Shape4 g) {w : Coord} (hw : inB w)
    (hB : BreezeIff g) : BreezeIff (stamp .BREEZE w (appendAt g w .PIT)) := by
  intro p hp
  have hshA : Shape4 (appendAt g w .PIT) := Shape4_set2 hsh w _
  have hmemPit : ∀ q, inB q →
      (Element.PIT ∈ getCell (stamp .BREEZE w (appendAt g w .PIT)) q ↔
        Element.PIT ∈ getCell g q ∨ q = w) := by
    intro q hq
    rw [mem_stamp_ne (by simp) w _ q]
    by_cases hqw : q = w
    · subst hqw
      rw [getCell_appendAt_self hsh hq]
      simp
    · rw [getCell_appendAt_ne hq hw hqw]
      simp [hqw]
  rw [mem_stamp Element.BREEZE Element.BREEZE w hshA hp]
  rw [mem_appendAt_ne (by simp) g w p]
  rw [hB p hp]
  constructor
  · rintro (⟨q, hq, hadj, hpit⟩ | ⟨_, hadj⟩)
    · exact ⟨q, hq, hadj, (hmemPit q hq).2 (Or.inl hpit)⟩
    · exact ⟨w, hw, hadj, (hmemPit w hw).2 (Or.inr rfl)⟩
  · rintro ⟨q, hq, hadj, hpit⟩
    rcases (hmemPit q hq).1 hpit with h1 | h1
    · exact Or.inl ⟨q, hq, hadj, h1⟩
    · exact Or.inr ⟨rfl, h1 ▸ hadj⟩

/-- What one run of the pit-placement loop body does to the board, composed
over `count` pits. -/
theorem placePits_spec :
    ∀ (count fuel : ℕ) (g : Grid) (r : RNG) (g2 : Grid) (r2 : RNG),
      placePits count fuel g r = some (g2, r2) → Shape4 g →
      Shape4 g2 ∧
      (∀ e1, e1 ≠ Element.PIT → e1 ≠ Element.BREEZE →
        ∀ p, cellCount e1 (getCell g2 p) = cellCount e1 (getCell g p)) ∧
      totalCount Element.PIT g2 = totalCount Element.PIT g + count ∧
      (∀ p, inB p → Element.PIT ∈ getCell g2 p →
        Element.PIT ∈ getCell g p ∨ (p ≠ startP ∧ Element.WUMPUS ∉ getCell g p)) ∧
      (BreezeIff g → BreezeIff g2) := by
  intro count
  induction count with
  | zero =>
    intro fuel g r g2 r2 h hsh
    simp only [placePits, Option.some.injEq, Prod.mk.injEq] at h
    obtain ⟨rfl, rfl⟩ := h
    exact ⟨hsh, fun e1 _ _ p => rfl, by omega, fun p _ h2 => Or.inl h2, fun h2 => h2⟩
  | succ n ih =>
    intro fuel g r g2 r2 h hsh
    simp only [placePits] at h
    rcases hloop : placePitLoop fuel g r with _ | ⟨g1, r1⟩
    · rw [hloop] at h; simp at h
    · rw [hloop] at h
      obtain ⟨w, hw, hwstart, hwnoW, hg1⟩ := placePitLoop_spec fuel g r g1 r1 hloop
      subst hg1
      have hshA : Shape4 (appendAt g w .PIT) := Shape4_set2 hsh w _
      have hsh1 : Shape4 (stamp .BREEZE w (appendAt g w .PIT)) := Shape4_stamp _ w hshA
      obtain ⟨hsh2, hcnt, htot, hpits, hbrz⟩ := ih fuel _ r1 g2 r2 h hsh1
      refine ⟨hsh2, ?_, ?_, ?_, ?_⟩
      · intro e1 hP hB p
        rw [hcnt e1 hP hB p, cellCount_stamp_ne hB w _ p, cellCount_appendAt_ne hP g w p]
      · rw [htot, totalCount_stamp_ne (by simp) w _,
          totalCount_appendAt_self Element.PIT hsh hw]
        omega
      · intro p hp hpit
        rcases hpits p hp hpit with h1 | ⟨h1, h2⟩
        · -- the pit was already on the intermediate board
          rw [mem_stamp_ne (by simp) w _ p] at h1
          by_cases hpw : p = w
          · subst hpw
            exact Or.inr ⟨hwstart, hwnoW⟩
          · rw [getCell_appendAt_ne hp hw hpw] at h1
            exact Or.inl h1
        · -- a later pit landed on a fresh cell of the intermediate board
          rw [mem_stamp_ne (by simp) w _ p] at h2
          by_cases hpw : p = w
          · subst hpw
            exact Or.inr ⟨hwstart, hwnoW⟩
          · rw [getCell_appendAt_ne hp hw hpw] at h2
            exact Or.inr ⟨h1, h2⟩
      · intro hB
        exact hbrz (BreezeIff_pitPlace hsh hw hB)

/-! ### Initial board facts -/

theorem startP_inB : inB startP := by decide

theorem getD_replicate {α : Type} (d x : α) :
    ∀ (n i : ℕ), (List.replicate n x).getD i d = if i < n then x else d := by
  intro n
  induction n with
  | zero => intro i; simp
  | succ m ih =>
    intro i
    cases i with
    | zero => simp [List.replicate]
    | succ j =>
      show (List.replicate m x).getD j d = _
      rw [ih j]
      by_cases h : j < m
      · rw [if_pos h, if_pos (by omega)]
      · rw [if_neg h, if_neg (by omega)]

theorem Shape4_emptyGrid : Shape4 emptyGrid := by
  refine ⟨rfl, ?_⟩
  intro row hr
  rw [emptyGrid, List.mem_replicate] at hr
  rw [hr.2]
  rfl

theorem getCell_emptyGrid (p : Coord) : getCell emptyGrid p = [] := by
  unfold getCell get2 emptyGrid
  rw [getD_replicate]
  by_cases h : p.1.toNat < 4
  · rw [if_pos h, getD_replicate]
    split <;> rfl
  · rw [if_neg h]
    rfl

theorem totalCount_emptyGrid (e : Element) : totalCount e emptyGrid = 0 := by
  unfold totalCount
  simp [posList, getCell_emptyGrid, cellCount]

theorem not_mem_of_totalCount_zero {e : Element} {g : Grid}
    (h : totalCount e g = 0) {p : Coord} (hp : inB p) : e ∉ getCell g p := by
  have h2 := cellCount_le_totalCount e g hp
  rw [mem_iff_cellCount_ne]
  omega

theorem mem_iff_of_cellCount_eq {e : Element} {g1 g2 : Grid}
    (h : cellCount e (getCell g2 p) = cellCount e (getCell g1 p)) :
    e ∈ getCell g2 p ↔ e ∈ getCell g1 p := by
  rw [mem_iff_cellCount_ne, mem_iff_cellCount_ne, h]

/-- Everything true of the board right after the Wumpus phase of
`reset_game`. -/
theorem wumpusPhase_facts {w : Coord} (hwB : inB w) (hwS : w ≠ startP) :
    Shape4 (stamp .STENCH w (appendAt (appendAt emptyGrid startP .PLAYER) w .WUMPUS)) ∧
    (∀ p, inB p →
      cellCount Element.PLAYER
        (getCell (stamp .STENCH w (appendAt (appendAt emptyGrid startP .PLAYER) w .WUMPUS)) p) =
        if p = startP then 1 else 0) ∧
    totalCount Element.WUMPUS
      (stamp .STENCH w (appendAt (appendAt emptyGrid startP .PLAYER) w .WUMPUS)) = 1 ∧
    (∀ p, inB p →
      (Element.WUMPUS ∈
        getCell (stamp .STENCH w (appendAt (appendAt emptyGrid startP .PLAYER) w .WUMPUS)) p ↔
        p = w)) ∧
    (∀ p, inB p →
      (Element.STENCH ∈
        getCell (stamp .STENCH w (appendAt (appendAt emptyGrid startP .PLAYER) w .WUMPUS)) p ↔
        Adj p w)) ∧
    totalCount Element.PIT
      (stamp .STENCH w (appendAt (appendAt emptyGrid startP .PLAYER) w .WUMPUS)) = 0 ∧
    totalCount Element.GOLD
      (stamp .STENCH w (appendAt (appendAt emptyGrid startP .PLAYER) w .WUMPUS)) = 0 ∧
    BreezeIff (stamp .STENCH w (appendAt (appendAt emptyGrid startP .PLAYER) w .WUMPUS)) := by
  set g0 : Grid := appendAt emptyGrid startP .PLAYER with hg0
  have hsh0 : Shape4 g0 := Shape4_set2 Shape4_emptyGrid _ _
  have hc0 : ∀ p, inB p → getCell g0 p = if p = startP then [Element.PLAYER] else [] := by
    intro p hp
    by_cases hps : p = startP
    · subst hps
      rw [if_pos rfl, hg0, getCell_appendAt_self Shape4_emptyGrid hp, getCell_emptyGrid]
      rfl
    · rw [if_neg hps, hg0, getCell_appendAt_ne hp startP_inB hps, getCell_emptyGrid]
  have hshA : Shape4 (appendAt g0 w .WUMPUS) := Shape4_set2 hsh0 _ _
  have hsh1 : Shape4 (stamp .STENCH w (appendAt g0 w .WUMPUS)) := Shape4_stamp _ w hshA
  have htotP : totalCount Element.PIT (stamp .STENCH w (appendAt g0 w .WUMPUS)) = 0 := by
    rw [totalCount_stamp_ne (by simp), totalCount_appendAt_ne (by simp),
      hg0, totalCount_appendAt_ne (by simp), totalCount_emptyGrid]
  have htotB : totalCount Element.BREEZE (stamp .STENCH w (appendAt g0 w .WUMPUS)) = 0 := by
    rw [totalCount_stamp_ne (by simp), totalCount_appendAt_ne (by simp),
      hg0, totalCount_appendAt_ne (by simp), totalCount_emptyGrid]
  refine ⟨hsh1, ?_, ?_, ?_, ?_, htotP, ?_, ?_⟩
  · intro p hp
    rw [cellCount_stamp_ne (by simp) w _ p, cellCount_appendAt_ne (by simp) _ w p, hc0 p hp]
    by_cases hps : p = startP <;> simp [hps, cellCount]
  · rw [totalCount_stamp_ne (by simp), totalCount_appendAt_self _ hsh0 hwB,
      hg0, totalCount_appendAt_ne (by simp), totalCount_emptyGrid]
  · intro p hp
    rw [mem_stamp_ne (by simp) w _ p]
    by_cases hpw : p = w
    · subst hpw
      rw [getCell_appendAt_self hsh0 hp]
      simp
    · rw [getCell_appendAt_ne hp hwB hpw, hc0 p hp]
      by_cases hps : p = startP
      · subst hps
        simp only [if_pos rfl, List.mem_singleton]
        constructor
        · intro h1; exact absurd h1 (by simp)
        · intro h1; exact absurd h1.symm hwS
      · simp [hps, hpw]
  · intro p hp
    rw [mem_stamp _ _ w hshA hp]
    constructor
    · rintro (h1 | ⟨_, h2⟩)
      · exfalso
        rw [mem_appendAt_ne (by simp) _ w p, hc0 p hp] at h1
        by_cases hps : p = startP <;> simp [hps] at h1
      · exact h2
    · intro h2
      exact Or.inr ⟨rfl, h2⟩
  · rw [totalCount_stamp_ne (by simp), totalCount_appendAt_ne (by simp),
      hg0, totalCount_appendAt_ne (by simp), totalCount_emptyGrid]
  · intro p hp
    constructor
    · intro h1
      exact absurd h1 (not_mem_of_totalCount_zero htotB hp)
    · rintro ⟨q, hq, _, hpit⟩
      exact absurd hpit (not_mem_of_totalCount_zero htotP hq)

/-- Appending the gold at a safe cell of a post-pit board yields all the
generator guarantees. -/
theorem goldPhase_boardFacts {g2 : Grid} {w gp : Coord}
    (hsh2 : Shape4 g2)
    (hPL2 : ∀ p, inB p →
      cellCount Element.PLAYER (getCell g2 p) = if p = startP then 1 else 0)
    (htotW2 : totalCount Element.WUMPUS g2 = 1)
    (hWmem2 : ∀ p, inB p → (Element.WUMPUS ∈ getCell g2 p ↔ p = w))
    (hSmem2 : ∀ p, inB p → (Element.STENCH ∈ getCell g2 p ↔ Adj p w))
    (hwB : inB w) (hwS : w ≠ startP)
    (htotP2low : 1 ≤ totalCount Element.PIT g2)
    (htotP2high : totalCount Element.PIT g2 ≤ 3)
    (hpitCells2 : ∀ p, inB p → Element.PIT ∈ getCell g2 p →
      p ≠ startP ∧ Element.WUMPUS ∉ getCell g2 p)
    (hBrz2 : BreezeIff g2)
    (htotG2 : totalCount Element.GOLD g2 = 0)
    (hgpB : inB gp) (hgpS : gp ≠ startP)
    (hgpW : Element.WUMPUS ∉ getCell g2 gp) (hgpP : Element.PIT ∉ getCell g2 gp) :
    BoardFacts (appendAt g2 gp .GOLD) := by
  refine
    { shape := Shape4_set2 hsh2 _ _
      player := fun p hp => (cellCount_appendAt_ne (by simp) g2 gp p).trans (hPL2 p hp)
      wumpusTotal := (totalCount_appendAt_ne (by simp) g2 gp).trans htotW2
      wumpusCell := ⟨w, hwB, hwS,
        fun p hp => (mem_appendAt_ne (by simp) g2 gp p).trans (hWmem2 p hp),
        fun p hp => (mem_appendAt_ne (by simp) g2 gp p).trans (hSmem2 p hp)⟩
      pitTotalLow := ?_
      pitTotalHigh := ?_
      pitCells := ?_
      breeze := ?_
      goldTotal := ?_
      goldCell := ⟨gp, hgpB, hgpS, ?_, ?_, ?_⟩ }
  · rw [totalCount_appendAt_ne (by simp)]
    exact htotP2low
  · rw [totalCount_appendAt_ne (by simp)]
    exact htotP2high
  · intro p hp hpit
    have h1 := hpitCells2 p hp ((mem_appendAt_ne (by simp) g2 gp p).1 hpit)
    exact ⟨h1.1, fun hw2 => h1.2 ((mem_appendAt_ne (by simp) g2 gp p).1 hw2)⟩
  · intro p hp
    rw [mem_appendAt_ne (by simp) g2 gp p, hBrz2 p hp]
    constructor
    · rintro ⟨q, hq, hadj, hpit⟩
      exact ⟨q, hq, hadj, (mem_appendAt_ne (by simp) g2 gp q).2 hpit⟩
    · rintro ⟨q, hq, hadj, hpit⟩
      exact ⟨q, hq, hadj, (mem_appendAt_ne (by simp) g2 gp q).1 hpit⟩
  · rw [totalCount_appendAt_self _ hsh2 hgpB, htotG2]
  · rw [mem_appendAt_ne (by simp) g2 gp gp]
    exact hgpW
  · rw [mem_appendAt_ne (by simp) g2 gp gp]
    exact hgpP
  · intro p hp
    by_cases hpg : p = gp
    · subst hpg
      rw [getCell_appendAt_self hsh2 hp]
      simp
    · rw [getCell_appendAt_ne hp hgpB hpg]
      constructor
      · intro h1
        exact absurd h1 (not_mem_of_totalCount_zero htotG2 hp)
      · intro h1
        exact absurd h1 hpg

/-- Every state produced by `reset_game` is a freshly initialized session
around a board satisfying all generator guarantees. -/
theorem reset_game_facts (fuel : ℕ) (r : RNG) (s : GameState)
    (h : reset_game fuel r = some s) :
    ∃ g3, s = mkInitState g3 ∧ BoardFacts g3 := by
  simp only [reset_game] at h
  rcases hW : placeWumpusLoop fuel (appendAt emptyGrid startP .PLAYER) r with _ | ⟨g1, r1⟩
  · rw [hW] at h; simp at h
  · rw [hW] at h
    dsimp only at h
    obtain ⟨w, hwB, hwS, hg1⟩ := placeWumpusLoop_spec _ _ _ _ _ hW
    have hfacts := wumpusPhase_facts hwB hwS
    rw [← hg1] at hfacts
    obtain ⟨hsh1, hPL1, htotW1, hWmem1, hSmem1, htotP1, htotG1, hBrz1⟩ := hfacts
    rcases hP : placePits (r1.randint 1 3).1 fuel g1 (r1.randint 1 3).2 with _ | ⟨g2, r3⟩
    · rw [hP] at h; simp at h
    · rw [hP] at h
      dsimp only at h
      obtain ⟨hsh2, hcnt2, htot2, hpits2, hbrz2⟩ := placePits_spec _ _ _ _ _ _ hP hsh1
      obtain ⟨hcl, hch⟩ := randint13_bounds r1
      have hWmem2 : ∀ p, inB p → (Element.WUMPUS ∈ getCell g2 p ↔ p = w) := fun p hp =>
        (mem_iff_of_cellCount_eq (hcnt2 _ (by simp) (by simp) p)).trans (hWmem1 p hp)
      have hSmem2 : ∀ p, inB p → (Element.STENCH ∈ getCell g2 p ↔ Adj p w) := fun p hp =>
        (mem_iff_of_cellCount_eq (hcnt2 _ (by simp) (by simp) p)).trans (hSmem1 p hp)
      have hPL2 : ∀ p, inB p →
          cellCount Element.PLAYER (getCell g2 p) = if p = startP then 1 else 0 :=
        fun p hp => (hcnt2 _ (by simp) (by simp) p).trans (hPL1 p hp)
      have htotW2 : totalCount Element.WUMPUS g2 = 1 :=
        (totalCount_congr _ (fun q _ => hcnt2 _ (by simp) (by simp) q)).trans htotW1
      have htotG2 : totalCount Element.GOLD g2 = 0 :=
        (totalCount_congr _ (fun q _ => hcnt2 _ (by simp) (by simp) q)).trans htotG1
      have htotP2 : totalCount Element.PIT g2 = (r1.randint 1 3).1 := by
        rw [htot2, htotP1]
        omega
      have hpitCells2 : ∀ p, inB p → Element.PIT ∈ getCell g2 p →
          p ≠ startP ∧ Element.WUMPUS ∉ getCell g2 p := by
        intro p hp hpit
        rcases hpits2 p hp hpit with h1 | ⟨h1, h2⟩
        · exact absurd h1 (not_mem_of_totalCount_zero htotP1 hp)
        · exact ⟨h1, fun hw2 => h2 ((hWmem1 p hp).2 ((hWmem2 p hp).1 hw2))⟩
      have hBrz2 : BreezeIff g2 := hbrz2 hBrz1
      split at h
      · -- the preferred cell (0, 3) is unsafe, fall back to rejection sampling
        rcases hG : placeGoldLoop fuel g2 r3 with _ | ⟨gp, r4⟩
        · rw [hG] at h; simp at h
        · rw [hG] at h
          dsimp only at h
          obtain ⟨hgpB, hgpS, hgpW, hgpP⟩ := placeGoldLoop_spec _ _ _ _ _ hG
          injection h with h2
          refine ⟨appendAt g2 gp .GOLD, h2.symm, ?_⟩
          exact goldPhase_boardFacts hsh2 hPL2 htotW2 hWmem2 hSmem2 hwB hwS
            (by omega) (by omega) hpitCells2 hBrz2 htotG2 hgpB hgpS hgpW hgpP
      · -- the preferred cell (0, 3) is safe
        rename_i hcond
        push_neg at hcond
        obtain ⟨hc1, hc2, hc3⟩ := hcond
        injection h with h2
        refine ⟨appendAt g2 ((0 : ℤ), (3 : ℤ)) .GOLD, h2.symm, ?_⟩
        exact goldPhase_boardFacts hsh2 hPL2 htotW2 hWmem2 hSmem2 hwB hwS
          (by omega) (by omega) hpitCells2 hBrz2 htotG2 (by decide) (by decide) hc2 hc3

/-! ### Step lemmas for event resolution -/

theorem goldStep_of_mem {s : GameState} (h : Element.GOLD ∈ getCell s.grid s.player_pos) :
    goldStep s = { s with
      grid := removeAt s.grid s.player_pos .GOLD
      has_gold := true
      message := "You found the gold! Return to start." } := by
  unfold goldStep
  rw [if_pos h]

theorem goldStep_of_not_mem {s : GameState}
    (h : Element.GOLD ∉ getCell s.grid s.player_pos) : goldStep s = s := by
  unfold goldStep
  rw [if_neg h]

theorem pitStep_of_mem {s : GameState} (h : Element.PIT ∈ getCell s.grid s.player_pos) :
    pitStep s = { s with game_over := true, message := "You fell into a pit! Game Over." } := by
  unfold pitStep
  rw [if_pos h]

theorem pitStep_of_not_mem {s : GameState}
    (h : Element.PIT ∉ getCell s.grid s.player_pos) : pitStep s = s := by
  unfold pitStep
  rw [if_neg h]

theorem wumpusStep_of_mem {s : GameState}
    (h : Element.WUMPUS ∈ getCell s.grid s.player_pos) :
    wumpusStep s = { s with game_over := true, message := "The Wumpus got you! Game Over." } := by
  unfold wumpusStep
  rw [if_pos h]

theorem wumpusStep_of_not_mem {s : GameState}
    (h : Element.WUMPUS ∉ getCell s.grid s.player_pos) : wumpusStep s = s := by
  unfold wumpusStep
  rw [if_neg h]

theorem winStep_of_cond {s : GameState} (h : s.has_gold = true ∧ s.player_pos = startP) :
    winStep s = { s with
      game_over := true
      win := true
      message := "You won! You got the gold and returned safely." } := by
  unfold winStep
  rw [if_pos h]

theorem winStep_of_not_cond {s : GameState}
    (h : ¬ (s.has_gold = true ∧ s.player_pos = startP)) : winStep s = s := by
  unfold winStep
  rw [if_neg h]

theorem perceptStep_of_over {s : GameState} (h : s.game_over = true) : perceptStep s = s := by
  unfold perceptStep
  rw [if_pos h]

theorem perceptStep_of_not_over {s : GameState} (h : ¬ s.game_over = true) :
    perceptStep s = { s with
      pits_nearby := if Element.BREEZE ∈ getCell s.grid s.player_pos then 1 else 0
      wumpus_nearby := if Element.STENCH ∈ getCell s.grid s.player_pos then 1 else 0
      message :=
        if Element.BREEZE ∈ getCell s.grid s.player_pos ∧
            Element.STENCH ∈ getCell s.grid s.player_pos then
          "You feel a breeze & You smell a stench"
        else if Element.BREEZE ∈ getCell s.grid s.player_pos then "You feel a breeze"
        else if Element.STENCH ∈ getCell s.grid s.player_pos then "You smell a stench"
        else if s.has_gold = true then "Return to start with the gold!"
        else "Find the gold!" } := by
  unfold perceptStep
  rw [if_neg h]

theorem goldStep_fields (s : GameState) :
    (goldStep s).player_pos = s.player_pos ∧ (goldStep s).game_over = s.game_over ∧
    (goldStep s).win = s.win ∧ (goldStep s).visited = s.visited ∧
    (goldStep s).moves = s.moves ∧ (goldStep s).cells_visited = s.cells_visited := by
  unfold goldStep
  split <;> exact ⟨rfl, rfl, rfl, rfl, rfl, rfl⟩

theorem pitStep_fields (s : GameState) :
    (pitStep s).grid = s.grid ∧ (pitStep s).player_pos = s.player_pos ∧
    (pitStep s).has_gold = s.has_gold ∧ (pitStep s).win = s.win ∧
    (pitStep s).visited = s.visited ∧ (pitStep s).moves = s.moves ∧
    (pitStep s).cells_visited = s.cells_visited := by
  unfold pitStep
  split <;> exact ⟨rfl, rfl, rfl, rfl, rfl, rfl, rfl⟩

theorem wumpusStep_fields (s : GameState) :
    (wumpusStep s).grid = s.grid ∧ (wumpusStep s).player_pos = s.player_pos ∧
    (wumpusStep s).has_gold = s.has_gold ∧ (wumpusStep s).win = s.win ∧
    (wumpusStep s).visited = s.visited ∧ (wumpusStep s).moves = s.moves ∧
    (wumpusStep s).cells_visited = s.cells_visited := by
  unfold wumpusStep
  split <;> exact ⟨rfl, rfl, rfl, rfl, rfl, rfl, rfl⟩

theorem winStep_fields (s : GameState) :
    (winStep s).grid = s.grid ∧ (winStep s).player_pos = s.player_pos ∧
    (winStep s).has_gold = s.has_gold ∧ (winStep s).visited = s.visited ∧
    (winStep s).moves = s.moves ∧ (winStep s).cells_visited = s.cells_visited := by
  unfold winStep
  split <;> exact ⟨rfl, rfl, rfl, rfl, rfl, rfl⟩

theorem perceptStep_fields (s : GameState) :
    (perceptStep s).grid = s.grid ∧ (perceptStep s).player_pos = s.player_pos ∧
    (perceptStep s).has_gold = s.has_gold ∧ (perceptStep s).game_over = s.game_over ∧
    (perceptStep s).win = s.win ∧ (perceptStep s).visited = s.visited ∧
    (perceptStep s).moves = s.moves ∧ (perceptStep s).cells_visited = s.cells_visited := by
  unfold perceptStep
  split <;> exact ⟨rfl, rfl, rfl, rfl, rfl, rfl, rfl, rfl⟩

theorem pitStep_game_over_mono {s : GameState} (h : s.game_over = true) :
    (pitStep s).game_over = true := by
  unfold pitStep
  split
  · rfl
  · exact h

theorem wumpusStep_game_over_mono {s : GameState} (h : s.game_over = true) :
    (wumpusStep s).game_over = true := by
  unfold wumpusStep
  split
  · rfl
  · exact h

theorem winStep_game_over_mono {s : GameState} (h : s.game_over = true) :
    (winStep s).game_over = true := by
  unfold winStep
  split
  · rfl
  · exact h

theorem winStep_winGo {s : GameState} (h : s.win = true → s.game_over = true) :
    (winStep s).win = true → (winStep s).game_over = true := by
  unfold winStep
  split
  · intro _; rfl
  · exact h

/-! ### Visited matrix and move helper lemmas -/

theorem getVisited_setVisited_self {v : List (List Bool)} (hsh : Shape4 v)
    {p : Coord} (hp : inB p) : getVisited (setVisited v p) p = true := by
  unfold getVisited setVisited
  rw [get2_set2_self false hsh hp]

theorem getVisited_setVisited_ne {v : List (List Bool)} {p q : Coord}
    (hp : inB p) (hq : inB q) (hne : p ≠ q) :
    getVisited (setVisited v q) p = getVisited v p :=
  get2_set2_ne false hp hq hne _

theorem getVisited_setVisited_cases (v : List (List Bool)) (q p : Coord) :
    getVisited (setVisited v q) p = getVisited v p ∨ getVisited (setVisited v q) p = true := by
  unfold getVisited setVisited get2 set2
  by_cases h1 : p.1.toNat = q.1.toNat
  · by_cases h3 : q.1.toNat < v.length
    · rw [h1, getD_setAt_self _ _ _ _ h3]
      by_cases h2 : p.2.toNat = q.2.toNat
      · by_cases h4 : q.2.toNat < (v.getD q.1.toNat []).length
        · rw [h2, getD_setAt_self _ _ _ _ h4]
          exact Or.inr rfl
        · rw [h2, setAt_of_le _ _ _ (by omega)]
          exact Or.inl rfl
      · rw [getD_setAt_ne _ _ _ _ _ h2]
        exact Or.inl rfl
    · rw [setAt_of_le _ _ _ (by omega)]
      exact Or.inl rfl
  · rw [getD_setAt_ne _ _ _ _ _ h1]
    exact Or.inl rfl

theorem countVisited_le (v : List (List Bool)) : countVisited v ≤ 16 := by
  have h := List.sum_le_card_nsmul
    (posList.map (fun p => if getVisited v p = true then 1 else 0)) 1
    (by
      intro x hx
      rcases List.mem_map.1 hx with ⟨p, _, rfl⟩
      split <;> omega)
  simpa using h

theorem countVisited_setVisited {v : List (List Bool)} (hsh : Shape4 v) {p : Coord}
    (hp : inB p) (hfalse : getVisited v p = false) :
    countVisited (setVisited v p) = countVisited v + 1 := by
  have key : countVisited (setVisited v p) + (if getVisited v p = true then 1 else 0) =
      countVisited v + (if getVisited (setVisited v p) p = true then 1 else 0) :=
    sum_map_update posList posList_nodup p ((mem_posList p).2 hp)
      (fun q => if getVisited v q = true then 1 else 0)
      (fun q => if getVisited (setVisited v p) q = true then 1 else 0)
      (fun q hq hqp => by
        show (if getVisited (setVisited v p) q = true then 1 else 0) =
          (if getVisited v q = true then 1 else 0)
        rw [getVisited_setVisited_ne ((mem_posList q).1 hq) hp hqp])
  rw [hfalse, getVisited_setVisited_self hsh hp] at key
  simpa using key

theorem cellCount_removeFirst_le (e : Element) (l : List Element) :
    cellCount e (removeFirst e l) ≤ cellCount e l := by
  by_cases h : e ∈ l
  · have h2 := cellCount_removeFirst_self h
    omega
  · rw [removeFirst_of_not_mem h]

theorem cellCount_removeAt_le (e : Element) (g : Grid) (q p : Coord) :
    cellCount e (getCell (removeAt g q e) p) ≤ cellCount e (getCell g p) := by
  unfold getCell removeAt get2 set2
  by_cases h1 : p.1.toNat = q.1.toNat
  · by_cases h3 : q.1.toNat < g.length
    · rw [h1, getD_setAt_self _ _ _ _ h3]
      by_cases h2 : p.2.toNat = q.2.toNat
      · by_cases h4 : q.2.toNat < (g.getD q.1.toNat []).length
        · rw [h2, getD_setAt_self _ _ _ _ h4]
          exact cellCount_removeFirst_le e _
        · rw [h2, setAt_of_le _ _ _ (by omega)]
      · rw [getD_setAt_ne _ _ _ _ _ h2]
    · rw [setAt_of_le _ _ _ (by omega)]
  · rw [getD_setAt_ne _ _ _ _ _ h1]

theorem mem_of_mem_removeAt {e : Element} {g : Grid} {q p : Coord}
    (h : e ∈ getCell (removeAt g q e) p) : e ∈ getCell g p := by
  rw [mem_iff_cellCount_ne] at h ⊢
  have h2 := cellCount_removeAt_le e g q p
  omega

theorem candidate_ne (s : GameState) (d : Direction) : candidate s d ≠ s.player_pos := by
  cases d <;>
    (intro h
     have h1 := congrArg Prod.fst h
     have h2 := congrArg Prod.snd h
     simp only [candidate, Direction.delta] at h1 h2
     omega)

theorem move_player_of_game_over {s : GameState} (h : s.game_over = true) (dx dy : ℤ) :
    move_player s dx dy = s := by
  unfold move_player
  rw [if_pos h]

theorem move_player_of_oob {s : GameState} {dx dy : ℤ}
    (h : ¬ inB (s.player_pos.1 + dx, s.player_pos.2 + dy)) : move_player s dx dy = s := by
  unfold move_player
  by_cases hgo : s.game_over = true
  · rw [if_pos hgo]
  · rw [if_neg hgo, if_neg h]

theorem move_player_committed {s : GameState} {dx dy : ℤ} (hgo : s.game_over = false)
    (hin : inB (s.player_pos.1 + dx, s.player_pos.2 + dy)) :
    move_player s dx dy =
      check_events (commitMove s (s.player_pos.1 + dx, s.player_pos.2 + dy)) := by
  unfold move_player
  rw [if_neg (by rw [hgo]; exact Bool.false_ne_true), if_pos hin]

theorem attemptMove_of_game_over {s : GameState} (h : s.game_over = true) (d : Direction) :
    attemptMove s d = s :=
  move_player_of_game_over h _ _

theorem attemptMove_of_oob {s : GameState} {d : Direction} (h : ¬ inB (candidate s d)) :
    attemptMove s d = s :=
  move_player_of_oob h

theorem attemptMove_committed {s : GameState} {d : Direction} (hgo : s.game_over = false)
    (hin : inB (candidate s d)) :
    attemptMove s d = check_events (commitMove s (candidate s d)) :=
  move_player_committed hgo hin

theorem applyMoves_of_game_over {s : GameState} (h : s.game_over = true) :
    ∀ ds : List Direction, applyMoves s ds = s := by
  intro ds
  induction ds with
  | nil => rfl
  | cons d ds ih =>
    show applyMoves (attemptMove s d) ds = s
    rw [attemptMove_of_game_over h d]
    exact ih

/-! ### The reachable-state invariant -/

theorem Shape4_emptyVisited : Shape4 emptyVisited := by
  refine ⟨rfl, ?_⟩
  intro row hr
  rw [emptyVisited, List.mem_replicate] at hr
  rw [hr.2]
  rfl

/-- Committing a player move preserves the grid invariants, repointed at
the new cell. -/
theorem GInv_commit {g : Grid} {pos : Coord} {hasg : Bool} (h : GInv g pos hasg)
    {c : Coord} (hin : inB c) (hcne : c ≠ pos) :
    GInv (appendAt (removeAt g pos .PLAYER) c .PLAYER) c hasg := by
  obtain ⟨hsh, hposB, hplayer, hW, hG, hPnoW, hPstart, hGsafe⟩ := h
  have hshR : Shape4 (removeAt g pos .PLAYER) := Shape4_set2 hsh _ _
  have hmemT : ∀ (e1 : Element), e1 ≠ Element.PLAYER → ∀ p,
      cellCount e1 (getCell (appendAt (removeAt g pos .PLAYER) c .PLAYER) p) =
        cellCount e1 (getCell g p) := by
    intro e1 he1 p
    rw [cellCount_appendAt_ne he1, cellCount_removeAt_ne he1]
  have hmemT2 : ∀ (e1 : Element), e1 ≠ Element.PLAYER → ∀ p,
      (e1 ∈ getCell (appendAt (removeAt g pos .PLAYER) c .PLAYER) p ↔ e1 ∈ getCell g p) := by
    intro e1 he1 p
    rw [mem_iff_cellCount_ne, mem_iff_cellCount_ne, hmemT e1 he1 p]
  refine ⟨Shape4_set2 hshR _ _, hin, ?_, ?_, ?_, ?_, ?_, ?_⟩
  · intro p hp
    by_cases hpc : p = c
    · subst hpc
      rw [getCell_appendAt_self hshR hp, cellCount_append,
        getCell_removeAt_ne hp hposB hcne]
      have h1 := hplayer p hp
      rw [if_neg hcne] at h1
      rw [if_pos rfl, h1]
      simp
    · rw [getCell_appendAt_ne hp hin hpc, if_neg hpc]
      by_cases hppos : p = pos
      · subst hppos
        rw [getCell_removeAt_self hsh hp]
        have h1 := hplayer p hp
        rw [if_pos rfl] at h1
        have hmem : Element.PLAYER ∈ getCell g p := by
          rw [mem_iff_cellCount_ne]
          omega
        have h2 := cellCount_removeFirst_self hmem
        omega
      · rw [getCell_removeAt_ne hp hposB hppos]
        have h1 := hplayer p hp
        rw [if_neg hppos] at h1
        exact h1
  · rw [totalCount_appendAt_ne (by simp), totalCount_removeAt_ne (by simp)]
    exact hW
  · rw [totalCount_appendAt_ne (by simp), totalCount_removeAt_ne (by simp)]
    exact hG
  · intro p hp h1
    rw [hmemT2 _ (by simp) p] at h1
    rw [mem_iff_cellCount_ne, hmemT _ (by simp) p, ← mem_iff_cellCount_ne]
    exact hPnoW p hp h1
  · rw [hmemT2 _ (by simp) startP]
    exact hPstart
  · intro p hp h1
    rw [hmemT2 _ (by simp) p] at h1
    obtain ⟨ha, hb, hc2⟩ := hGsafe p hp h1
    refine ⟨ha, ?_, ?_⟩
    · rw [hmemT2 _ (by simp) p]
      exact hb
    · rw [hmemT2 _ (by simp) p]
      exact hc2

/-- Consuming the gold at the player's cell preserves the grid invariants
with the gold flag raised. -/
theorem GInv_goldRemove {g : Grid} {pos : Coord} {hasg : Bool} (h : GInv g pos hasg)
    (hmem : Element.GOLD ∈ getCell g pos) :
    GInv (removeAt g pos .GOLD) pos true := by
  obtain ⟨hsh, hposB, hplayer, hW, hG, hPnoW, hPstart, hGsafe⟩ := h
  have hmemT : ∀ (e1 : Element), e1 ≠ Element.GOLD → ∀ p,
      cellCount e1 (getCell (removeAt g pos .GOLD) p) = cellCount e1 (getCell g p) := by
    intro e1 he1 p
    rw [cellCount_removeAt_ne he1]
  have hmemT2 : ∀ (e1 : Element), e1 ≠ Element.GOLD → ∀ p,
      (e1 ∈ getCell (removeAt g pos .GOLD) p ↔ e1 ∈ getCell g p) := by
    intro e1 he1 p
    rw [mem_iff_cellCount_ne, mem_iff_cellCount_ne, hmemT e1 he1 p]
  have hcnt : cellCount Element.GOLD (getCell g pos) ≠ 0 :=
    (mem_iff_cellCount_ne _ _).1 hmem
  have hle := cellCount_le_totalCount Element.GOLD g hposB
  have htot1 : totalCount Element.GOLD g = 1 := by omega
  have htot0 := totalCount_removeAt_self Element.GOLD hsh hposB hmem
  refine ⟨Shape4_set2 hsh _ _, hposB, ?_, ?_, ?_, ?_, ?_, ?_⟩
  · intro p hp
    rw [hmemT _ (by simp) p]
    exact hplayer p hp
  · rw [totalCount_removeAt_ne (by simp)]
    exact hW
  · show totalCount Element.GOLD (removeAt g pos Element.GOLD) + 1 = 1
    omega
  · intro p hp h1
    rw [hmemT2 _ (by simp) p] at h1
    rw [mem_iff_cellCount_ne, hmemT _ (by simp) p, ← mem_iff_cellCount_ne]
    exact hPnoW p hp h1
  · rw [hmemT2 _ (by simp) startP]
    exact hPstart
  · intro p hp h1
    have h2 : Element.GOLD ∈ getCell g p := mem_of_mem_removeAt h1
    obtain ⟨ha, hb, hc2⟩ := hGsafe p hp h2
    refine ⟨ha, ?_, ?_⟩
    · rw [hmemT2 _ (by simp) p]
      exact hb
    · rw [hmemT2 _ (by simp) p]
      exact hc2

theorem SessionInv_mkInitState {g : Grid} (hbf : BoardFacts g) :
    SessionInv (mkInitState g) := by
  refine ⟨⟨hbf.shape, startP_inB, hbf.player, hbf.wumpusTotal, ?_, ?_, ?_, ?_⟩, ?_, ?_, ?_⟩
  · show totalCount Element.GOLD g + 0 = 1
    rw [hbf.goldTotal]
  · exact fun p hp h1 => (hbf.pitCells p hp h1).2
  · intro h1
    exact (hbf.pitCells startP startP_inB h1).1 rfl
  · intro p hp h1
    obtain ⟨gp, hgpB, hgpS, hgpW, hgpP, hmem⟩ := hbf.goldCell
    have hpg : p = gp := (hmem p hp).1 h1
    subst hpg
    exact ⟨hgpS, hgpP, hgpW⟩
  · exact Shape4_set2 Shape4_emptyVisited _ _
  · show (1 : ℕ) = countVisited (setVisited emptyVisited startP)
    decide
  · intro h1
    exact absurd h1 (by simp [mkInitState])

theorem check_events_const (u : GameState) :
    (check_events u).grid = (goldStep u).grid ∧
    (check_events u).player_pos = u.player_pos ∧
    (check_events u).has_gold = (goldStep u).has_gold ∧
    (check_events u).visited = u.visited ∧
    (check_events u).moves = u.moves ∧
    (check_events u).cells_visited = u.cells_visited := by
  unfold check_events
  obtain ⟨p1, p2, p3, p4, p5, p6, p7, p8⟩ :=
    perceptStep_fields (winStep (wumpusStep (pitStep (goldStep u))))
  obtain ⟨w1, w2, w3, w4, w5, w6⟩ := winStep_fields (wumpusStep (pitStep (goldStep u)))
  obtain ⟨x1, x2, x3, x4, x5, x6, x7⟩ := wumpusStep_fields (pitStep (goldStep u))
  obtain ⟨y1, y2, y3, y4, y5, y6, y7⟩ := pitStep_fields (goldStep u)
  obtain ⟨z1, z2, z3, z4, z5, z6⟩ := goldStep_fields u
  exact ⟨by rw [p1, w1, x1, y1], by rw [p2, w2, x2, y2, z1], by rw [p3, w3, x3, y3],
    by rw [p6, w4, x5, y5, z4], by rw [p7, w5, x6, y6, z5], by rw [p8, w6, x7, y7, z6]⟩

theorem check_events_winGo (u : GameState) (h : u.win = true → u.game_over = true) :
    (check_events u).win = true → (check_events u).game_over = true := by
  unfold check_events
  have hz := goldStep_fields u
  have hy := pitStep_fields (goldStep u)
  have hx := wumpusStep_fields (pitStep (goldStep u))
  have h1 : (wumpusStep (pitStep (goldStep u))).win = true →
      (wumpusStep (pitStep (goldStep u))).game_over = true := by
    intro hw
    rw [hx.2.2.2.1, hy.2.2.2.1, hz.2.2.1] at hw
    exact wumpusStep_game_over_mono (pitStep_game_over_mono (hz.2.1.trans (h hw)))
  intro hw
  have hp := perceptStep_fields (winStep (wumpusStep (pitStep (goldStep u))))
  rw [hp.2.2.2.2.1] at hw
  rw [hp.2.2.2.1]
  exact winStep_winGo h1 hw

theorem bool_eq_false_of_ne_true {b : Bool} (h : ¬ b = true) : b = false := by
  revert h
  cases b <;> simp

theorem SessionInv_attemptMove {s : GameState} (hI : SessionInv s) (d : Direction) :
    SessionInv (attemptMove s d) := by
  by_cases hgo : s.game_over = true
  · rw [attemptMove_of_game_over hgo d]
    exact hI
  · have hgo2 : s.game_over = false := bool_eq_false_of_ne_true hgo
    by_cases hin : inB (candidate s d)
    · rw [attemptMove_committed hgo2 hin]
      have hcne : candidate s d ≠ s.player_pos := candidate_ne s d
      have hginvT : GInv (commitMove s (candidate s d)).grid
          (commitMove s (candidate s d)).player_pos
          (commitMove s (candidate s d)).has_gold :=
        GInv_commit hI.ginv hin hcne
      set t := commitMove s (candidate s d) with ht
      have hginvU : GInv (goldStep t).grid (goldStep t).player_pos (goldStep t).has_gold := by
        by_cases hg : Element.GOLD ∈ getCell t.grid t.player_pos
        · rw [goldStep_of_mem hg]
          exact GInv_goldRemove hginvT hg
        · rw [goldStep_of_not_mem hg]
          exact hginvT
      obtain ⟨e1, e2, e3, e4, e5, e6⟩ := check_events_const t
      refine ⟨?_, ?_, ?_, ?_⟩
      · rw [e1, e2, e3]
        have hpos : (goldStep t).player_pos = t.player_pos := (goldStep_fields t).1
        rw [← hpos]
        exact hginvU
      · rw [e4]
        show Shape4 (commitMove s (candidate s d)).visited
        unfold commitMove
        split
        · exact hI.vshape
        · exact Shape4_set2 hI.vshape _ _
      · rw [e6, e4]
        show (commitMove s (candidate s d)).cells_visited =
          countVisited (commitMove s (candidate s d)).visited
        unfold commitMove
        by_cases hv : getVisited s.visited (candidate s d) = true
        · rw [if_pos hv, if_pos hv]
          exact hI.visCount
        · rw [if_neg hv, if_neg hv,
            countVisited_setVisited hI.vshape hin (bool_eq_false_of_ne_true hv), hI.visCount]
      · exact check_events_winGo t hI.winGo
    · rw [attemptMove_of_oob hin]
      exact hI

theorem SessionInv_applyMoves {s : GameState} (hI : SessionInv s) :
    ∀ ms : List Direction, SessionInv (applyMoves s ms) := by
  intro ms
  induction ms generalizing s with
  | nil => exact hI
  | cons d ds ih =>
    show SessionInv (applyMoves (attemptMove s d) ds)
    exact ih (SessionInv_attemptMove hI d)

theorem SessionInv_reset {fuel : ℕ} {r : RNG} {s : GameState}
    (h : reset_game fuel r = some s) : SessionInv s := by
  obtain ⟨g3, hs, hbf⟩ := reset_game_facts fuel r s h
  rw [hs]
  exact SessionInv_mkInitState hbf

theorem Reachable_SessionInv {s : GameState} (h : Reachable s) : SessionInv s := by
  obtain ⟨fuel, r, ms, hmap⟩ := h
  rcases hres : reset_game fuel r with _ | s0
  · rw [hres] at hmap
    simp at hmap
  · rw [hres] at hmap
    have hmap2 : applyMoves s0 ms = s := Option.some.inj hmap
    rw [← hmap2]
    exact SessionInv_applyMoves (SessionInv_reset hres) ms

/-! ### Claim-level helper lemmas -/

/-- A move never changes the count of any tag other than `PLAYER` and
`GOLD` in any cell: the only cell mutations of `move_player` and
`check_events` are the player marker and the gold pickup. -/
theorem cellCount_attemptMove {e : Element} (he1 : e ≠ Element.PLAYER)
    (he2 : e ≠ Element.GOLD) (t : GameState) (d : Direction) (p : Coord) :
    cellCount e (getCell (attemptMove t d).grid p) = cellCount e (getCell t.grid p) := by
  by_cases hgo : t.game_over = true
  · rw [attemptMove_of_game_over hgo]
  · by_cases hin : inB (candidate t d)
    · rw [attemptMove_committed (bool_eq_false_of_ne_true hgo) hin,
        (check_events_const _).1]
      have hgrid : cellCount e (getCell (commitMove t (candidate t d)).grid p) =
          cellCount e (getCell t.grid p) := by
        show cellCount e
          (getCell (appendAt (removeAt t.grid t.player_pos .PLAYER) (candidate t d) .PLAYER) p) = _
        rw [cellCount_appendAt_ne he1, cellCount_removeAt_ne he1]
      by_cases hg : Element.GOLD ∈
          getCell (commitMove t (candidate t d)).grid (commitMove t (candidate t d)).player_pos
      · rw [goldStep_of_mem hg]
        show cellCount e (getCell (removeAt (commitMove t (candidate t d)).grid
          (commitMove t (candidate t d)).player_pos .GOLD) p) = _
        rw [cellCount_removeAt_ne he2]
        exact hgrid
      · rw [goldStep_of_not_mem hg]
        exact hgrid
    · rw [attemptMove_of_oob hin]

theorem mem_attemptMove {e : Element} (he1 : e ≠ Element.PLAYER)
    (he2 : e ≠ Element.GOLD) (t : GameState) (d : Direction) (p : Coord) :
    e ∈ getCell (attemptMove t d).grid p ↔ e ∈ getCell t.grid p := by
  rw [mem_iff_cellCount_ne, mem_iff_cellCount_ne, cellCount_attemptMove he1 he2]

/-- Memberships of non-`PLAYER` tags transfer through the committed-move
grid update. -/
theorem mem_commitMove {e : Element} (he1 : e ≠ Element.PLAYER) (s : GameState)
    (c : Coord) (p : Coord) :
    e ∈ getCell (commitMove s c).grid p ↔ e ∈ getCell s.grid p := by
  show e ∈ getCell (appendAt (removeAt s.grid s.player_pos .PLAYER) c .PLAYER) p ↔ _
  rw [mem_appendAt_ne he1, mem_removeAt_ne he1]

theorem win_false_of_ongoing {s : GameState} (hI : SessionInv s)
    (hgo : s.game_over = false) : s.win = false := by
  cases hsw : s.win
  · rfl
  · exact absurd ((hI.winGo hsw).symm.trans hgo) (by simp)

/-! ### The claims -/

/-- Claim C1: every board produced by `reset_game` (for every draw stream
and fuel) carries exactly one `WUMPUS` tag, exactly one `GOLD` tag, between
1 and 3 `PIT` tags (one per accepted pit-placement draw), no cell holding
both `WUMPUS` and `PIT`, and a start cell (3,0) free of `WUMPUS`, `PIT` and
`GOLD`. -/
theorem claim_C1_generator_invariants (fuel : ℕ) (r : RNG) (s : GameState)
    (h : reset_game fuel r = some s) :
    totalCount Element.WUMPUS s.grid = 1 ∧
    totalCount Element.GOLD s.grid = 1 ∧
    1 ≤ totalCount Element.PIT s.grid ∧ totalCount Element.PIT s.grid ≤ 3 ∧
    (∀ p, inB p → ¬ (Element.WUMPUS ∈ getCell s.grid p ∧ Element.PIT ∈ getCell s.grid p)) ∧
    Element.WUMPUS ∉ getCell s.grid startP ∧
    Element.PIT ∉ getCell s.grid startP ∧
    Element.GOLD ∉ getCell s.grid startP := by
  obtain ⟨g3, hs, hbf⟩ := reset_game_facts fuel r s h
  subst hs
  refine ⟨hbf.wumpusTotal, hbf.goldTotal, hbf.pitTotalLow, hbf.pitTotalHigh, ?_, ?_, ?_, ?_⟩
  · rintro p hp ⟨hw, hpit⟩
    exact (hbf.pitCells p hp hpit).2 hw
  · intro h1
    obtain ⟨w, hwB, hwS, hmemW, _⟩ := hbf.wumpusCell
    exact hwS ((hmemW startP startP_inB).1 h1).symm
  · intro h1
    exact (hbf.pitCells startP startP_inB h1).1 rfl
  · intro h1
    obtain ⟨gp, hgpB, hgpS, _, _, hmemG⟩ := hbf.goldCell
    exact hgpS ((hmemG startP startP_inB).1 h1).symm

theorem claim_C1_witness : totalCount Element.WUMPUS s0C.grid = 1 :=
  (claim_C1_generator_invariants 5 rngC s0C rfl).1

/-- Claim C2: on every generated board a cell has `STENCH` iff it is an
in-bounds orthogonal neighbor of the Wumpus cell and `BREEZE` iff it is an
in-bounds orthogonal neighbor of some `PIT` cell; and no move ever changes
the `STENCH`/`BREEZE` content of any cell (percepts are placed only at
setup). -/
theorem claim_C2_percepts (fuel : ℕ) (r : RNG) (s : GameState)
    (h : reset_game fuel r = some s) :
    ((∀ w, inB w → Element.WUMPUS ∈ getCell s.grid w →
        ∀ p, inB p → (Element.STENCH ∈ getCell s.grid p ↔ Adj p w)) ∧
      (∀ p, inB p → (Element.BREEZE ∈ getCell s.grid p ↔
        ∃ q, inB q ∧ Adj p q ∧ Element.PIT ∈ getCell s.grid q))) ∧
    (∀ (t : GameState) (d : Direction) (p : Coord),
      (Element.STENCH ∈ getCell (attemptMove t d).grid p ↔
        Element.STENCH ∈ getCell t.grid p) ∧
      (Element.BREEZE ∈ getCell (attemptMove t d).grid p ↔
        Element.BREEZE ∈ getCell t.grid p)) := by
  obtain ⟨g3, hs, hbf⟩ := reset_game_facts fuel r s h
  subst hs
  refine ⟨⟨?_, hbf.breeze⟩, ?_⟩
  · intro w hw hmem p hp
    obtain ⟨w0, hw0B, hw0S, hmemW, hmemS⟩ := hbf.wumpusCell
    have hww0 : w = w0 := (hmemW w hw).1 hmem
    subst hww0
    exact hmemS p hp
  · intro t d p
    exact ⟨mem_attemptMove (by simp) (by simp) t d p,
      mem_attemptMove (by simp) (by simp) t d p⟩

theorem claim_C2_witness :
    Element.STENCH ∈ getCell s0C.grid ((2 : ℤ), (1 : ℤ)) ↔
      Adj ((2 : ℤ), (1 : ℤ)) ((1 : ℤ), (1 : ℤ)) :=
  (claim_C2_percepts 5 rngC s0C rfl).1.1 ((1 : ℤ), (1 : ℤ)) (by decide) (by decide)
    ((2 : ℤ), (1 : ℤ)) (by decide)

/-- Claim C3: from any ongoing state, a committed move after which the gold
is held and the position is the start cell (3,0) ends the game as `Won`
with the victory message — in particular collecting the gold and then
returning to (3,0) wins. -/
theorem claim_C3_win_on_return (s : GameState) (d : Direction)
    (hgo : s.game_over = false) (hin : inB (candidate s d))
    (hgold : (attemptMove s d).has_gold = true)
    (hpos : (attemptMove s d).player_pos = startP) :
    (attemptMove s d).status = Status.Won ∧
    (attemptMove s d).message = "You won! You got the gold and returned safely." := by
  rw [attemptMove_committed hgo hin] at hgold hpos ⊢
  obtain ⟨e1, e2, e3, e4, e5, e6⟩ := check_events_const (commitMove s (candidate s d))
  rw [e3] at hgold
  rw [e2] at hpos
  set t := commitMove s (candidate s d) with ht
  have hyG : (wumpusStep (pitStep (goldStep t))).has_gold = true := by
    rw [(wumpusStep_fields (pitStep (goldStep t))).2.2.1,
      (pitStep_fields (goldStep t)).2.2.1]
    exact hgold
  have hyP : (wumpusStep (pitStep (goldStep t))).player_pos = startP := by
    rw [(wumpusStep_fields (pitStep (goldStep t))).2.1,
      (pitStep_fields (goldStep t)).2.1, (goldStep_fields t).1]
    exact hpos
  have hwin := winStep_of_cond ⟨hyG, hyP⟩
  show (perceptStep (winStep (wumpusStep (pitStep (goldStep t))))).status = Status.Won ∧
    (perceptStep (winStep (wumpusStep (pitStep (goldStep t))))).message =
      "You won! You got the gold and returned safely."
  rw [hwin, perceptStep_of_over rfl]
  exact ⟨rfl, rfl⟩

theorem claim_C3_witness : (attemptMove s3C Direction.down).status = Status.Won :=
  (claim_C3_win_on_return s3C Direction.down (by decide) (by decide) (by decide)
    (by decide)).1

/-- Claim C4: from any reachable ongoing state, a committed move onto a
cell holding `PIT` ends the game as `Lost` with the pit message, and no
sequence of further moves changes anything (in particular position and
message) until a reset. -/
theorem claim_C4_pit_loss (s : GameState) (d : Direction) (hreach : Reachable s)
    (hgo : s.game_over = false) (hin : inB (candidate s d))
    (hpit : Element.PIT ∈ getCell s.grid (candidate s d)) :
    (attemptMove s d).status = Status.Lost ∧
    (attemptMove s d).message = "You fell into a pit! Game Over." ∧
    ∀ ds : List Direction, applyMoves (attemptMove s d) ds = attemptMove s d := by
  have hI := Reachable_SessionInv hreach
  have hswin : s.win = false := win_false_of_ongoing hI hgo
  obtain ⟨hsh, hposB, hplayer, hW, hG, hPnoW, hPstart, hGsafe⟩ := hI.ginv
  rw [attemptMove_committed hgo hin]
  set c := candidate s d with hc
  set t := commitMove s c with ht
  have htpos : t.player_pos = c := rfl
  have hpitT : Element.PIT ∈ getCell t.grid t.player_pos := by
    rw [htpos, ht, mem_commitMove (by simp)]
    exact hpit
  have hnoG : Element.GOLD ∉ getCell t.grid t.player_pos := by
    rw [htpos, ht, mem_commitMove (by simp)]
    intro hgold
    exact (hGsafe c hin hgold).2.1 hpit
  have hnoW : Element.WUMPUS ∉ getCell t.grid t.player_pos := by
    rw [htpos, ht, mem_commitMove (by simp)]
    exact hPnoW c hin hpit
  have hcstart : c ≠ startP := by
    intro hcs
    exact hPstart (hcs ▸ hpit)
  have hu : goldStep t = t := goldStep_of_not_mem hnoG
  have hx : pitStep t =
      { t with game_over := true, message := "You fell into a pit! Game Over." } :=
    pitStep_of_mem hpitT
  have hy : wumpusStep (pitStep t) = pitStep t :=
    wumpusStep_of_not_mem (by rw [hx]; exact hnoW)
  have hz : winStep (pitStep t) = pitStep t :=
    winStep_of_not_cond (by
      rintro ⟨_, hp⟩
      rw [hx] at hp
      exact hcstart hp)
  have hperc : perceptStep (pitStep t) = pitStep t :=
    perceptStep_of_over (by rw [hx])
  show (perceptStep (winStep (wumpusStep (pitStep (goldStep t))))).status = Status.Lost ∧
    (perceptStep (winStep (wumpusStep (pitStep (goldStep t))))).message =
      "You fell into a pit! Game Over." ∧
    ∀ ds : List Direction,
      applyMoves (perceptStep (winStep (wumpusStep (pitStep (goldStep t))))) ds =
        perceptStep (winStep (wumpusStep (pitStep (goldStep t))))
  rw [hu, hy, hz, hperc, hx]
  refine ⟨?_, rfl, ?_⟩
  · have htwin : t.win = false := hswin
    simp [GameState.status, htwin]
  · intro ds
    exact applyMoves_of_game_over rfl ds

theorem claim_C4_witness : (attemptMove s4C Direction.right).status = Status.Lost :=
  (claim_C4_pit_loss s4C Direction.right ⟨5, rngC, [.right, .right], rfl⟩ (by decide)
    (by decide) (by decide)).1

/-- Claim C5: from a reachable ongoing state, the first committed move onto
the gold cell raises `has_gold` and removes the `GOLD` tag from that cell;
and any move aimed at a cell without `GOLD` (in particular the same cell
later) leaves `has_gold` and the gold content of every cell unchanged. -/
theorem claim_C5_gold_once :
    (∀ (s : GameState) (d : Direction), Reachable s → s.game_over = false →
      inB (candidate s d) → Element.GOLD ∈ getCell s.grid (candidate s d) →
      (attemptMove s d).has_gold = true ∧
      Element.GOLD ∉ getCell (attemptMove s d).grid (candidate s d)) ∧
    (∀ (s : GameState) (d : Direction), Reachable s →
      Element.GOLD ∉ getCell s.grid (candidate s d) →
      (attemptMove s d).has_gold = s.has_gold ∧
      ∀ p, cellCount Element.GOLD (getCell (attemptMove s d).grid p) =
        cellCount Element.GOLD (getCell s.grid p)) := by
  constructor
  · intro s d hreach hgo hin hgold
    have hI := Reachable_SessionInv hreach
    obtain ⟨hsh, hposB, hplayer, hW, hG, hPnoW, hPstart, hGsafe⟩ := hI.ginv
    rw [attemptMove_committed hgo hin]
    obtain ⟨e1, e2, e3, e4, e5, e6⟩ := check_events_const (commitMove s (candidate s d))
    set c := candidate s d with hc
    set t := commitMove s c with ht
    have htsh : Shape4 t.grid := Shape4_set2 (Shape4_set2 hsh _ _) _ _
    have hgoldT : Element.GOLD ∈ getCell t.grid t.player_pos := by
      show Element.GOLD ∈ getCell t.grid c
      rw [ht, mem_commitMove (by simp)]
      exact hgold
    have hcntT : cellCount Element.GOLD (getCell t.grid c) =
        cellCount Element.GOLD (getCell s.grid c) := by
      rw [ht]
      show cellCount Element.GOLD
        (getCell (appendAt (removeAt s.grid s.player_pos .PLAYER) c .PLAYER) c) = _
      rw [cellCount_appendAt_ne (by simp), cellCount_removeAt_ne (by simp)]
    have hcnt1 : cellCount Element.GOLD (getCell s.grid c) = 1 := by
      have hle := cellCount_le_totalCount Element.GOLD s.grid hin
      have hne : cellCount Element.GOLD (getCell s.grid c) ≠ 0 :=
        (mem_iff_cellCount_ne _ _).1 hgold
      omega
    have hu := goldStep_of_mem hgoldT
    constructor
    · rw [e3, hu]
    · rw [e1, hu]
      show Element.GOLD ∉ getCell (removeAt t.grid t.player_pos .GOLD) c
      have htp : t.player_pos = c := rfl
      rw [htp, getCell_removeAt_self htsh hin, mem_iff_cellCount_ne]
      have h2 := cellCount_removeFirst_self (htp ▸ hgoldT)
      rw [hcntT, hcnt1] at h2
      omega
  · intro s d hreach hnogold
    by_cases hgo : s.game_over = true
    · rw [attemptMove_of_game_over hgo]
      exact ⟨rfl, fun p => rfl⟩
    · by_cases hin : inB (candidate s d)
      · rw [attemptMove_committed (bool_eq_false_of_ne_true hgo) hin]
        obtain ⟨e1, e2, e3, e4, e5, e6⟩ := check_events_const (commitMove s (candidate s d))
        set c := candidate s d with hc
        set t := commitMove s c with ht
        have hnoT : Element.GOLD ∉ getCell t.grid t.player_pos := by
          show Element.GOLD ∉ getCell t.grid c
          rw [ht, mem_commitMove (by simp)]
          exact hnogold
        have hu := goldStep_of_not_mem hnoT
        refine ⟨by rw [e3, hu]; rfl, ?_⟩
        intro p
        rw [e1, hu, ht]
        show cellCount Element.GOLD
          (getCell (appendAt (removeAt s.grid s.player_pos .PLAYER) c .PLAYER) p) = _
        rw [cellCount_appendAt_ne (by simp), cellCount_removeAt_ne (by simp)]
      · rw [attemptMove_of_oob hin]
        exact ⟨rfl, fun p => rfl⟩

theorem claim_C5_witness : (attemptMove s5C Direction.right).has_gold = true :=
  (claim_C5_gold_once.1 s5C Direction.right ⟨5, rngC, [.up, .up, .up, .right, .right], rfl⟩
    (by decide) (by decide) (by decide)).1

/-- Claim C6: a move attempted while the game is over, or whose candidate
cell is out of bounds, is a complete no-op — the state (position, grid,
visited, counters, flags, message, status) is unchanged, and repeating the
same input any number of times still changes nothing. -/
theorem claim_C6_silent_rejection (s : GameState) (d : Direction)
    (h : s.game_over = true ∨ ¬ inB (candidate s d)) :
    attemptMove s d = s ∧ ∀ n : ℕ, (fun u => attemptMove u d)^[n] s = s := by
  have h1 : attemptMove s d = s := by
    rcases h with h | h
    · exact attemptMove_of_game_over h d
    · exact attemptMove_of_oob h
  refine ⟨h1, ?_⟩
  intro n
  induction n with
  | zero => rfl
  | succ m ih =>
    rw [Function.iterate_succ_apply]
    show (fun u => attemptMove u d)^[m] (attemptMove s d) = s
    rw [h1]
    exact ih

theorem claim_C6_witness :
    ((fun u => attemptMove u Direction.up)^[2]) s6C = s6C ∧ attemptMove s0C Direction.down = s0C :=
  ⟨(claim_C6_silent_rejection s6C Direction.up (Or.inl (by decide))).2 2,
    (claim_C6_silent_rejection s0C Direction.down (Or.inr (by decide))).1⟩

/-- Claim C7: in every state reachable from a reset by any move sequence,
exactly one cell holds the `PLAYER` tag — the cell at the current player
position (count 1 there, 0 everywhere else). -/
theorem claim_C7_player_marker (s : GameState) (h : Reachable s) :
    ∀ p, inB p → cellCount Element.PLAYER (getCell s.grid p) =
      if p = s.player_pos then 1 else 0 := by
  obtain ⟨_, _, hplayer, _⟩ := (Reachable_SessionInv h).ginv
  exact hplayer

theorem claim_C7_witness :
    cellCount Element.PLAYER (getCell s0C.grid ((3 : ℤ), (0 : ℤ))) =
      if ((3 : ℤ), (0 : ℤ)) = s0C.player_pos then 1 else 0 :=
  claim_C7_player_marker s0C ⟨5, rngC, [], rfl⟩ ((3 : ℤ), (0 : ℤ)) (by decide)

/-- Claim C8: after a reset `cells_visited` is 1 with the start cell
marked; every move only grows the visited set and never decreases
`cells_visited`; and in every reachable state `cells_visited` never exceeds
N×N = 16. -/
theorem claim_C8_visited_monotone :
    (∀ (fuel : ℕ) (r : RNG) (s0 : GameState), reset_game fuel r = some s0 →
      s0.cells_visited = 1 ∧ getVisited s0.visited startP = true) ∧
    (∀ (s : GameState) (d : Direction) (p : Coord),
      getVisited s.visited p = true → getVisited (attemptMove s d).visited p = true) ∧
    (∀ (s : GameState) (d : Direction), s.cells_visited ≤ (attemptMove s d).cells_visited) ∧
    (∀ s : GameState, Reachable s → s.cells_visited ≤ 16) := by
  refine ⟨?_, ?_, ?_, ?_⟩
  · intro fuel r s0 h
    obtain ⟨g3, hs, hbf⟩ := reset_game_facts fuel r s0 h
    subst hs
    exact ⟨rfl, rfl⟩
  · intro s d p hvp
    by_cases hgo : s.game_over = true
    · rw [attemptMove_of_game_over hgo]
      exact hvp
    · by_cases hin : inB (candidate s d)
      · rw [attemptMove_committed (bool_eq_false_of_ne_true hgo) hin,
          (check_events_const _).2.2.2.1]
        show getVisited
          (if getVisited s.visited (candidate s d) = true then s.visited
            else setVisited s.visited (candidate s d)) p = true
        split
        · exact hvp
        · rcases getVisited_setVisited_cases s.visited (candidate s d) p with hcase | hcase
          · rw [hcase]
            exact hvp
          · exact hcase
      · rw [attemptMove_of_oob hin]
        exact hvp
  · intro s d
    by_cases hgo : s.game_over = true
    · rw [attemptMove_of_game_over hgo]
    · by_cases hin : inB (candidate s d)
      · rw [attemptMove_committed (bool_eq_false_of_ne_true hgo) hin,
          (check_events_const _).2.2.2.2.2]
        show s.cells_visited ≤
          (if getVisited s.visited (candidate s d) = true then s.cells_visited
            else s.cells_visited + 1)
        split <;> omega
      · rw [attemptMove_of_oob hin]
  · intro s h
    have hI := Reachable_SessionInv h
    rw [hI.visCount]
    exact countVisited_le _

theorem claim_C8_witness :
    s0C.cells_visited = 1 ∧ cexGoldenRun.cells_visited ≤ 16 :=
  ⟨(claim_C8_visited_monotone.1 5 rngC s0C rfl).1,
    claim_C8_visited_monotone.2.2.2 cexGoldenRun ⟨5, rngC, msGoldC, rfl⟩⟩

/-- Claim C9 (as stated) is false: after the gold is picked up the board
holds zero `GOLD` tags.  A concrete reachable state — the board from
`rngC` after walking to the gold at (0,3) — has `GOLD` count 0, not 1. -/
theorem claim_C9_counterexample :
    Reachable cexGoldenRun ∧ totalCount Element.GOLD cexGoldenRun.grid = 0 ∧
    ¬ totalCount Element.GOLD cexGoldenRun.grid = 1 :=
  ⟨⟨5, rngC, msGoldC, rfl⟩, by decide, by decide⟩

/-- Claim C9 (amended): in every reachable state the grid holds exactly one
`WUMPUS` tag, and the `GOLD` tag count is one until the gold is collected
and zero afterwards — `goldCount + (hasGold ? 1 : 0) = 1`. -/
theorem claim_C9_amended (s : GameState) (h : Reachable s) :
    totalCount Element.WUMPUS s.grid = 1 ∧
    totalCount Element.GOLD s.grid + (if s.has_gold = true then 1 else 0) = 1 := by
  obtain ⟨_, _, _, hW, hG, _⟩ := (Reachable_SessionInv h).ginv
  exact ⟨hW, hG⟩

theorem claim_C9_witness : totalCount Element.WUMPUS cexGoldenRun.grid = 1 :=
  (claim_C9_amended cexGoldenRun ⟨5, rngC, msGoldC, rfl⟩).1

/-- Claim C10: on a reachable board, the move that picks up the gold can
never end the game (the gold cell holds no pit or Wumpus and is not the
start cell), so the percept block always overwrites the found-gold message:
the resulting message is a percept phrase or the return-to-start prompt,
never the found-gold message. -/
theorem claim_C10_pickup_message (s : GameState) (d : Direction) (hreach : Reachable s)
    (hgo : s.game_over = false) (hin : inB (candidate s d))
    (hgold : Element.GOLD ∈ getCell s.grid (candidate s d)) :
    (attemptMove s d).game_over = false ∧
    (attemptMove s d).message ≠ "You found the gold! Return to start." ∧
    ((attemptMove s d).message = "You feel a breeze & You smell a stench" ∨
      (attemptMove s d).message = "You feel a breeze" ∨
      (attemptMove s d).message = "You smell a stench" ∨
      (attemptMove s d).message = "Return to start with the gold!") := by
  have hI := Reachable_SessionInv hreach
  obtain ⟨hsh, hposB, hplayer, hW, hG, hPnoW, hPstart, hGsafe⟩ := hI.ginv
  obtain ⟨hcstart, hnoPit, hnoWum⟩ := hGsafe (candidate s d) hin hgold
  rw [attemptMove_committed hgo hin]
  set c := candidate s d with hc
  set t := commitMove s c with ht
  have htpos : t.player_pos = c := rfl
  have hgoldT : Element.GOLD ∈ getCell t.grid t.player_pos := by
    rw [htpos, ht, mem_commitMove (by simp)]
    exact hgold
  have hu := goldStep_of_mem hgoldT
  set u : GameState := { t with
    grid := removeAt t.grid t.player_pos .GOLD
    has_gold := true
    message := "You found the gold! Return to start." } with hudef
  have hnoPitU : Element.PIT ∉ getCell u.grid u.player_pos := by
    show Element.PIT ∉ getCell (removeAt t.grid t.player_pos .GOLD) t.player_pos
    rw [mem_removeAt_ne (by simp), htpos, ht, mem_commitMove (by simp)]
    exact hnoPit
  have hnoWumU : Element.WUMPUS ∉ getCell u.grid u.player_pos := by
    show Element.WUMPUS ∉ getCell (removeAt t.grid t.player_pos .GOLD) t.player_pos
    rw [mem_removeAt_ne (by simp), htpos, ht, mem_commitMove (by simp)]
    exact hnoWum
  have hx : pitStep u = u := pitStep_of_not_mem hnoPitU
  have hy : wumpusStep u = u := wumpusStep_of_not_mem hnoWumU
  have hz : winStep u = u := winStep_of_not_cond (by
    rintro ⟨_, hp⟩
    exact hcstart (htpos ▸ hp))
  have hgu : u.game_over = false := hgo
  have hperc := perceptStep_of_not_over (s := u) (by rw [hgu]; exact Bool.false_ne_true)
  have hce : check_events t = perceptStep (winStep (wumpusStep (pitStep (goldStep t)))) := rfl
  rw [hce, hu, hx, hy, hz, hperc]
  refine ⟨hgu, ?_, ?_⟩
  · by_cases hB : Element.BREEZE ∈ getCell u.grid u.player_pos <;>
      by_cases hS : Element.STENCH ∈ getCell u.grid u.player_pos <;>
      simp [hB, hS]
  · by_cases hB : Element.BREEZE ∈ getCell u.grid u.player_pos <;>
      by_cases hS : Element.STENCH ∈ getCell u.grid u.player_pos <;>
      simp [hB, hS]

theorem claim_C10_witness : (attemptMove s5C Direction.right).game_over = false :=
  (claim_C10_pickup_message s5C Direction.right
    ⟨5, rngC, [.up, .up, .up, .right, .right], rfl⟩ (by decide) (by decide) (by decide)).1
